import Mathlib

/-!
Verification development for the resume-processing pipeline of
`src/index.js` (an Express server that extracts text from uploaded PDF
resumes, scores them with an external evaluation service, normalizes the
result into candidate records, uploads the file to object storage and
persists the records).

The JavaScript functions are shallowly embedded as Lean functions:

* JS strings are Lean `String`s (operations are modelled for the ASCII
  range, which covers every constant the program manipulates);
* JS numbers are modelled exactly: finite doubles as rationals, plus the
  distinguished values `NaN`, `Infinity` and `-Infinity` (all of which
  have `typeof === number` in JS);
* arbitrary JS values (the program is routinely fed untyped junk) are the
  inductive `JSVal`;
* calls to external collaborators (the pdf parser, the Gemini API, object
  storage, the realtime database, the uuid generator) are inputs of the
  embedded functions: each per-item environment records the outcome the
  collaborator produced for that item, and theorems quantify over all
  such outcomes;
* a JS function that can throw is embedded with result type `Except`.
-/

set_option maxHeartbeats 4000000
set_option maxRecDepth 10000

/-! ## Characters and strings (ASCII model of the JS string operations) -/

/-- Whitespace test used by the model of `trim()` and `replace(/\s+/g, "")`.
Lean `Char.isWhitespace` covers space, tab, CR and LF; the JS versions also
strip some rarer Unicode space characters, which never occur in the
constants of this program. -/
def jsWs (c : Char) : Bool := c.isWhitespace

/-- Model of `String.prototype.trim` (drop leading and trailing whitespace). -/
def trimL (cs : List Char) : List Char :=
  ((cs.dropWhile jsWs).reverse.dropWhile jsWs).reverse

def jsTrim (s : String) : String := ⟨trimL s.data⟩

/-- Model of `toLowerCase()` / `toLocaleLowerCase()` (ASCII range; the
constants of the program are ASCII). The core `Char.toLower` maps exactly
the chars 65-90 to 97-122, as the JS functions do on ASCII. -/
def jsLower (s : String) : String := ⟨s.data.map Char.toLower⟩

/-- Model of `replace(/\s+/g, "")`: delete every whitespace character. -/
def jsStripWs (s : String) : String := ⟨s.data.filter (fun c => !jsWs c)⟩

/-- Model of `substring(0, n)` (JS clamps `n` to the length, as `take` does). -/
def jsTake (s : String) (n : Nat) : String := ⟨s.data.take n⟩

/-- Does the list start with the given pattern (used to model `startsWith`
and `indexOf`)? -/
def listStartsWith : List Char → List Char → Bool
  | [], _ => true
  | _ :: _, [] => false
  | p :: ps, c :: cs => p = c && listStartsWith ps cs

/-- Model of `indexOf(pat, start)` restricted to the suffix: scan the given
list (which is `cs.drop start`), reporting absolute indices. -/
def findSubAux (pat : List Char) : List Char → Nat → Option Nat
  | [], i => if pat.isEmpty then some i else none
  | l@(_ :: t), i => if listStartsWith pat l then some i else findSubAux pat t (i + 1)

/-- Model of `indexOf(pat, start)` (None for `-1`). -/
def findSubFrom (pat cs : List Char) (start : Nat) : Option Nat :=
  findSubAux pat (cs.drop start) start

/-- Model of `lastIndexOf(c)` (None for `-1`). -/
def lastIndexOfChar (c : Char) (cs : List Char) : Option Nat :=
  (cs.reverse.findIdx? (· = c)).map (fun j => cs.length - 1 - j)

/-- Split a list at the first occurrence of `c`: returns the part before
and the part after that occurrence. -/
def splitFirstAt (c : Char) : List Char → Option (List Char × List Char)
  | [] => none
  | x :: xs =>
    if x = c then some ([], xs)
    else (splitFirstAt c xs).map (fun p => (x :: p.1, p.2))

/-- Split a list at the last occurrence of `c`. -/
def splitLastAt (c : Char) (cs : List Char) : Option (List Char × List Char) :=
  match splitFirstAt c cs.reverse with
  | none => none
  | some (a, b) => some (b.reverse, a.reverse)

/-! ## JS numbers -/

/-- JS `number` values: finite doubles are modelled exactly as rationals;
`NaN` and the infinities are distinguished values. All constructors
represent values with `typeof === number` in JS. -/
inductive JNum where
  | nan
  | inf
  | ninf
  | rat (q : ℚ)
deriving DecidableEq, Repr

/-- The floor of `q + 1/2`, written so that the kernel can evaluate it
(the `Int.floor` instance on `ℚ` does not reduce); the bridging lemma
`ratRoundHalfUp_eq_floor` below identifies it with `⌊q + 1/2⌋`. -/
def ratRoundHalfUp (q : ℚ) : ℤ := (2 * q.num + (q.den : ℤ)) / (2 * (q.den : ℤ))

theorem ratRoundHalfUp_eq_floor (q : ℚ) : ratRoundHalfUp q = ⌊q + 1/2⌋ := by
  have h : ((2 * q.num + (q.den : ℤ) : ℤ) : ℚ) / ((2 * q.den : ℕ) : ℚ) = q + 1/2 := by
    have hd : ((q.den : ℚ)) ≠ 0 := Nat.cast_ne_zero.mpr q.den_nz
    conv_rhs => rw [← Rat.num_div_den q]
    push_cast
    field_simp
    ring
  rw [ratRoundHalfUp, ← h, Rat.floor_intCast_div_natCast]
  push_cast
  ring_nf

theorem ratRoundHalfUp_int (n : ℤ) : ratRoundHalfUp (n : ℚ) = n := by
  rw [ratRoundHalfUp_eq_floor, Int.floor_eq_iff]
  constructor
  · linarith
  · linarith

/-- `Math.round`: nearest integer with ties toward positive infinity,
i.e. the floor of `x + 1/2`; `NaN` and the infinities propagate. -/
def jsRound : JNum → JNum
  | .nan => .nan
  | .inf => .inf
  | .ninf => .ninf
  | .rat q => .rat ((ratRoundHalfUp q : ℤ) : ℚ)

/-- `Math.min(c, x)` with a finite first argument; `NaN` propagates.
(The `if` form is used instead of the lattice `min` so that the kernel
can evaluate it.) -/
def jsMinC (c : ℚ) : JNum → JNum
  | .nan => .nan
  | .inf => .rat c
  | .ninf => .ninf
  | .rat q => .rat (if q ≤ c then q else c)

/-- `Math.max(c, x)` with a finite first argument; `NaN` propagates. -/
def jsMaxC (c : ℚ) : JNum → JNum
  | .nan => .nan
  | .inf => .inf
  | .ninf => .rat c
  | .rat q => .rat (if q ≤ c then c else q)

/-- `Math.max(0, Math.min(100, Math.round(n)))` — the score normalization
of `validateCandidate` (src/index.js line 210). -/
def jsClampScore (n : JNum) : JNum := jsMaxC 0 (jsMinC 100 (jsRound n))

/-- JS `n >= 0` (false for `NaN`). -/
def jsGeZero : JNum → Bool
  | .rat q => decide (0 ≤ q)
  | .inf => true
  | _ => false

/-- Truthiness of a JS number: `0` and `NaN` are falsy. -/
def JNum.truthy : JNum → Bool
  | .nan => false
  | .rat q => decide (q ≠ 0)
  | _ => true

/-- JS subtraction on numbers (used by the sort comparator). -/
def jnumSub : JNum → JNum → JNum
  | .nan, _ => .nan
  | _, .nan => .nan
  | .inf, .inf => .nan
  | .inf, .ninf => .inf
  | .inf, .rat _ => .inf
  | .ninf, .inf => .ninf
  | .ninf, .ninf => .nan
  | .ninf, .rat _ => .ninf
  | .rat _, .inf => .ninf
  | .rat _, .ninf => .inf
  | .rat a, .rat b => .rat (a - b)

/-! ## JS values -/

/-- Untyped JS values, as far as this program inspects them. -/
inductive JSVal where
  | undef
  | null
  | bool (b : Bool)
  | num (n : JNum)
  | str (s : String)
  | arr (xs : List JSVal)
  | obj (fields : List (String × JSVal))

/-- JS truthiness. -/
def JSVal.truthy : JSVal → Bool
  | .undef => false
  | .null => false
  | .bool b => b
  | .num n => n.truthy
  | .str s => decide (s ≠ "")
  | .arr _ => true
  | .obj _ => true

/-- JS `a || b`. -/
def jsOr (a b : JSVal) : JSVal := if a.truthy then a else b

/-- Property read `v.k` on an arbitrary value: `undefined` unless `v` is an
object carrying the key (the last binding wins, as for duplicate keys in
`JSON.parse`). -/
def JSVal.getField (v : JSVal) (k : String) : JSVal :=
  match v with
  | .obj kvs =>
    match kvs.reverse.find? (fun kv => kv.1 = k) with
    | some kv => kv.2
    | none => .undef
  | _ => (.undef)

/-! ## The email regular expressions of src/index.js -/

/-- Character class `[A-Z0-9._%+-]` of the validation regex, case
insensitive (line 193). -/
def isLocalChar (c : Char) : Bool :=
  c.isAlpha || c.isDigit || c = '.' || c = '_' || c = '%' || c = '+' || c = '-'

/-- Character class `[A-Z0-9.-]` of the validation regex, case insensitive. -/
def isDomainChar (c : Char) : Bool :=
  c.isAlpha || c.isDigit || c = '.' || c = '-'

/-- Decision procedure for the anchored regex
`/^[A-Z0-9._%+-]+@[A-Z0-9.-]+\.[A-Z]\x7b2,\x7d$/i` of line 193.
Since neither character class contains `@`, a matching string has exactly
one `@`; since everything after the final `\.` must be alphabetic, the
dot consumed by `\.` is necessarily the last dot of the domain part.
The procedure below decides exactly that. -/
def emailValid (s : String) : Bool :=
  match splitFirstAt '@' s.data with
  | none => false
  | some (loc, rest) =>
    decide (loc ≠ []) && loc.all isLocalChar &&
      match splitLastAt '.' rest with
      | none => false
      | some (dom, tld) =>
        decide (dom ≠ []) && dom.all isDomainChar &&
          decide (tld.length ≥ 2) && tld.all Char.isAlpha

/-- Shape of the strings produced by the `uuidv4()` collaborator: nonempty,
made of decimal digits, lowercase hex letters (code points 97-102, i.e.
`a`-`f`) and hyphens. The embedding passes uuid draws as explicit
arguments; hypotheses of this shape stand for "the argument really came
from uuidv4". -/
def uuidLike (s : String) : Bool :=
  decide (s ≠ "") &&
    s.data.all (fun c => c.isDigit || (97 ≤ c.toNat && c.toNat ≤ 102) || c = '-')

/-! ## validateCandidate (src/index.js lines 186-220) -/

/-- The input payload of `validateCandidate`: the fields the function
reads, each an arbitrary JS value (absent keys are `undef`; a non-object
or null argument behaves like the all-`undef` record because every field
read then yields `undefined`). Note that the function reads
`experienceYears`, never `experience`. -/
structure CandidateInput where
  id : JSVal := .undef
  name : JSVal := .undef
  email : JSVal := .undef
  phone : JSVal := .undef
  location : JSVal := .undef
  score : JSVal := .undef
  parsedText : JSVal := .undef
  skills : JSVal := .undef
  experienceYears : JSVal := .undef
  jobTitle : JSVal := .undef
  education : JSVal := .undef
  approved : JSVal := .undef
  resumeUrl : JSVal := (.undef)

/-- The canonical output record. `id` and `resumeUrl` are kept as raw JS
values because the source keeps any truthy input there
(`candidateData.id || uuidv4()`, `candidateData.resumeUrl || "N/A"`);
all other fields are forced to the stated type by the normalizer. -/
@[ext]
structure CandidateRecord where
  id : JSVal
  name : String
  email : String
  phone : String
  location : String
  score : JNum
  parsedText : String
  skills : List String
  experience : JNum
  jobTitle : String
  education : String
  approved : Bool
  resumeUrl : JSVal

/-- The test `x && typeof x === "string" && x.trim() !== "" &&
x.trim().toLowerCase() !== "n/a"` used for name, phone, location, jobTitle
and education; returns the trimmed string when it passes. -/
def usableStr : JSVal → Option String
  | .str s =>
    if s ≠ "" ∧ jsTrim s ≠ "" ∧ jsLower (jsTrim s) ≠ "n/a" then some (jsTrim s) else none
  | _ => none

/-- The `emailInput` of line 191: the supplied email trimmed and
lowercased when it is a nonempty string, `""` otherwise. -/
def vcEmailInput (x : CandidateInput) : String :=
  match x.email with
  | .str s => if s ≠ "" then jsLower (jsTrim s) else ""
  | _ => ""

/-- The `fallbackEmailFromName` of lines 195-197: the candidate name with
the whitespace removed and lowercased when the name is usable, otherwise a
fresh unique token address built from the uuid draw `u2`. -/
def vcFallbackEmail (x : CandidateInput) (u2 : String) : String :=
  match usableStr x.name with
  | some t => jsLower (jsStripWs t) ++ "@gmail.com"
  | none => "unknown_" ++ u2 ++ "@gmail.com"

/-- The score normalization of line 210: clamp-and-round when the input is
a number (of any kind — `NaN` included), 0 otherwise. -/
def vcScore : JSVal → JNum
  | .num n => jsClampScore n
  | _ => .rat 0

/-- The experience normalization of line 214: the source reads the
`experienceYears` key, rounds it when it is a number `>= 0`, and defaults
to 0 otherwise. -/
def vcExperience : JSVal → JNum
  | .num n => if jsGeZero n then jsRound n else .rat 0
  | _ => .rat 0

/-- The approved normalization of line 217. -/
def vcApproved : JSVal → Bool
  | .bool b => b
  | _ => false

/-- The parsedText normalization of line 211: the trimmed input when it is
a string with nonempty trim, the fixed placeholder otherwise. -/
def vcParsedText : JSVal → String
  | .str s => if s ≠ "" ∧ jsTrim s ≠ "" then jsTrim s else "No summary provided."
  | _ => "No summary provided."

/-- The skills normalization of line 212: when the input is an array, keep
the entries that are strings with nonempty trim and trim them; anything
else yields the empty list. -/
def vcSkills : JSVal → List String
  | .arr xs =>
    (xs.filter (fun v =>
      match v with
      | .str s => jsTrim s ≠ ""
      | _ => false)).map (fun v =>
        match v with
        | .str s => jsTrim s
        | _ => "")
  | _ => []

/-- The final email of lines 199-201: the normalized input when it passes
the validation regex, the fallback otherwise. -/
def vcEmail (x : CandidateInput) (u2 : String) : String :=
  if vcEmailInput x ≠ "" ∧ emailValid (vcEmailInput x) then vcEmailInput x
  else vcFallbackEmail x u2

/-- Embedding of `validateCandidate` (src/index.js lines 186-220).
`u1` is the value the `uuidv4()` call on line 205 would return (drawn only
when the input id is falsy); `u2` the one of line 197 (drawn only when the
fallback email is needed and the name is unusable). -/
def validateCandidate (x : CandidateInput) (u1 u2 : String) : CandidateRecord :=
  { id := jsOr x.id (.str u1)
    name := (usableStr x.name).getD "Unknown"
    email := vcEmail x u2
    phone := (usableStr x.phone).getD "N/A"
    location := (usableStr x.location).getD "N/A"
    score := vcScore x.score
    parsedText := vcParsedText x.parsedText
    skills := vcSkills x.skills
    experience := vcExperience x.experienceYears
    jobTitle := (usableStr x.jobTitle).getD "N/A"
    education := (usableStr x.education).getD "N/A"
    approved := vcApproved x.approved
    resumeUrl := jsOr x.resumeUrl (.str "N/A") }

/-- Reading a produced `CandidateRecord` back as an input payload: the
record carries the thirteen keys of the §3 data model — in particular an
`experience` key but no `experienceYears` key, so `experienceYears` reads
as `undefined` (the `experience` key is never read by the normalizer). -/
def recordToInput (r : CandidateRecord) : CandidateInput :=
  { id := r.id
    name := .str r.name
    email := .str r.email
    phone := .str r.phone
    location := .str r.location
    score := .num r.score
    parsedText := .str r.parsedText
    skills := .arr (r.skills.map .str)
    experienceYears := .undef
    jobTitle := .str r.jobTitle
    education := .str r.education
    approved := .bool r.approved
    resumeUrl := r.resumeUrl }

/-- Does a `JNum` hold an integer in `[0, 100]`? (The §3 constraint on
`score`.) -/
def isIntIn0100 : JNum → Bool
  | .rat q => decide (q.den = 1) && decide (0 ≤ q) && decide (q ≤ 100)
  | _ => false

example : (validateCandidate {} "u" "v").name = "Unknown" := by decide
example : (validateCandidate {} "u" "v").email = "unknown_v@gmail.com" := by decide
example : (validateCandidate { score := .num (.rat (250)) } "u" "v").score = .rat 100 := by decide
example : (validateCandidate { score := .num (.rat (mkRat 17 2)) } "u" "v").score = .rat 9 := by
  decide
example : (validateCandidate { score := .num .nan } "u" "v").score = .nan := by decide
example : emailValid ("bob@x.com") = true := by decide
example : emailValid ("a@b@gmail.com") = false := by decide
example : (validateCandidate { name := .str "a@b", email := .str "bad" } "u" "v").email
    = "a@b@gmail.com" := by decide

/-! ## JSON.parse (used on the cleaned Gemini reply)

The parser produces `JSVal` values directly. JSON number syntax denotes
finite values only, so every number it builds is a `JNum.rat`; the
`no NaN` invariant is proved as a lemma below. -/

def hexDigitVal (c : Char) : Option Nat :=
  if c.isDigit then some (c.toNat - 48)
  else if 'a' ≤ c ∧ c ≤ 'f' then some (c.toNat - 87)
  else if 'A' ≤ c ∧ c ≤ 'F' then some (c.toNat - 55)
  else none

/-- JSON whitespace (space, tab, line feed, carriage return). -/
def skipJWs : List Char → List Char :=
  List.dropWhile (fun c => c = ' ' || c = '\t' || c = '\n' || c = '\r')

def escChar (e : Char) : Option Char :=
  if e = '"' then some '"'
  else if e = '\\' then some '\\'
  else if e = '/' then some '/'
  else if e = 'b' then some (Char.ofNat 8)
  else if e = 'f' then some (Char.ofNat 12)
  else if e = 'n' then some '\n'
  else if e = 'r' then some '\r'
  else if e = 't' then some '\t'
  else none

/-- Parse a JSON string body (the input starts after the opening quote);
returns the decoded characters and the remainder after the closing quote.
A `\u` escape is decoded with `Char.ofNat` (surrogate halves, which Lean
`Char` cannot represent, decode to NUL — they never occur here). -/
def parseJStringAux : Nat → List Char → Option (List Char × List Char)
  | 0, _ => none
  | _ + 1, [] => none
  | fuel + 1, c :: rest =>
    if c = '"' then some ([], rest)
    else if c = '\\' then
      match rest with
      | [] => none
      | e :: rest2 =>
        if e = 'u' then
          match rest2 with
          | a :: b :: c2 :: d :: rest3 =>
            match hexDigitVal a, hexDigitVal b, hexDigitVal c2, hexDigitVal d with
            | some x, some y, some z, some w =>
              (parseJStringAux fuel rest3).map
                (fun p => (Char.ofNat (4096 * x + 256 * y + 16 * z + w) :: p.1, p.2))
            | _, _, _, _ => none
          | _ => none
        else
          match escChar e with
          | some ec => (parseJStringAux fuel rest2).map (fun p => (ec :: p.1, p.2))
          | none => none
    else if c.toNat < 32 then none
    else (parseJStringAux fuel rest).map (fun p => (c :: p.1, p.2))

def digitsToNat (ds : List Char) : Nat := ds.foldl (fun a c => 10 * a + (c.toNat - 48)) 0

/-- Assemble a JSON number from sign, integer digits value, fraction digits
and decimal exponent. -/
def buildJNumber (neg : Bool) (ip : Nat) (fds : List Char) (e : ℤ) : ℚ :=
  let mant : ℤ := ((ip * 10 ^ fds.length + digitsToNat fds : ℕ) : ℤ)
  let m : ℤ := if neg then -mant else mant
  let shift : ℤ := e - fds.length
  if 0 ≤ shift then ((m * 10 ^ shift.toNat : ℤ) : ℚ)
  else mkRat m (10 ^ (-shift).toNat)

def parseJExpPart (neg : Bool) (ip : Nat) (fds : List Char) (cs : List Char) :
    Option (ℚ × List Char) :=
  match cs with
  | c :: t =>
    if c = 'e' ∨ c = 'E' then
      let se : Bool × List Char :=
        match t with
        | s :: t3 => if s = '+' then (false, t3) else if s = '-' then (true, t3) else (false, t)
        | [] => (false, t)
      let eds := se.2.takeWhile Char.isDigit
      if eds.isEmpty then none
      else
        some (buildJNumber neg ip fds
            (if se.1 then -(digitsToNat eds : ℤ) else (digitsToNat eds : ℤ)),
          se.2.dropWhile Char.isDigit)
    else some (buildJNumber neg ip fds 0, cs)
  | [] => some (buildJNumber neg ip fds 0, [])

def parseJNumber (cs : List Char) : Option (ℚ × List Char) :=
  let sgn : Bool × List Char :=
    match cs with
    | c :: t => if c = '-' then (true, t) else (false, cs)
    | [] => (false, cs)
  match sgn.2 with
  | [] => none
  | c :: t =>
    if ¬ c.isDigit then none
    else if c = '0' && (match t with | d :: _ => d.isDigit | [] => false) then none
    else
      let ids := sgn.2.takeWhile Char.isDigit
      let rest1 := sgn.2.dropWhile Char.isDigit
      match rest1 with
      | '.' :: fr =>
        let fds := fr.takeWhile Char.isDigit
        if fds.isEmpty then none
        else parseJExpPart sgn.1 (digitsToNat ids) fds (fr.dropWhile Char.isDigit)
      | _ => parseJExpPart sgn.1 (digitsToNat ids) [] rest1

mutual

def parseJVal : Nat → List Char → Option (JSVal × List Char)
  | 0, _ => none
  | fuel + 1, cs =>
    match skipJWs cs with
    | [] => none
    | c :: t =>
      if c = Char.ofNat 123 then parseJObjItems fuel t true []
      else if c = '[' then parseJArrItems fuel t true []
      else if c = '"' then (parseJStringAux fuel t).map (fun p => (.str ⟨p.1⟩, p.2))
      else if listStartsWith ("true".data) (c :: t) then some (.bool true, (c :: t).drop 4)
      else if listStartsWith ("false".data) (c :: t) then some (.bool false, (c :: t).drop 5)
      else if listStartsWith ("null".data) (c :: t) then some (.null, (c :: t).drop 4)
      else (parseJNumber (c :: t)).map (fun p => (.num (.rat p.1), p.2))
termination_by structural fuel => fuel

def parseJArrItems : Nat → List Char → Bool → List JSVal → Option (JSVal × List Char)
  | 0, _, _, _ => none
  | fuel + 1, cs, first, acc =>
    match skipJWs cs with
    | [] => none
    | c :: t =>
      if c = ']' then (if first then some (.arr acc.reverse, t) else none)
      else
        match parseJVal fuel (c :: t) with
        | none => none
        | some (v, rest) =>
          match skipJWs rest with
          | ',' :: t2 => parseJArrItems fuel t2 false (v :: acc)
          | ']' :: t2 => some (.arr (v :: acc).reverse, t2)
          | _ => none
termination_by structural fuel => fuel

def parseJObjItems : Nat → List Char → Bool → List (String × JSVal) →
    Option (JSVal × List Char)
  | 0, _, _, _ => none
  | fuel + 1, cs, first, acc =>
    match skipJWs cs with
    | [] => none
    | c :: t =>
      if c = Char.ofNat 125 then (if first then some (.obj acc.reverse, t) else none)
      else if c = '"' then
        match parseJStringAux fuel t with
        | none => none
        | some (k, rest) =>
          match skipJWs rest with
          | ':' :: t2 =>
            match parseJVal fuel t2 with
            | none => none
            | some (v, rest2) =>
              match skipJWs rest2 with
              | ',' :: t3 => parseJObjItems fuel t3 false ((⟨k⟩, v) :: acc)
              | c2 :: t3 =>
                if c2 = Char.ofNat 125 then some (.obj ((⟨k⟩, v) :: acc).reverse, t3) else none
              | [] => none
          | _ => none
      else none
termination_by structural fuel => fuel

end

/-- Model of `JSON.parse` on the cleaned evaluator reply: `none` models a
thrown `SyntaxError` (which line 496 catches). The fuel is a loose upper
bound on the number of recursive calls. -/
def jsonParse (s : String) : Option JSVal :=
  match parseJVal (2 * s.data.length + 4) s.data with
  | some (v, rest) => if skipJWs rest = [] then some v else none
  | none => none

example : jsonParse ("5") = some (.num (.rat 5)) := rfl
example : jsonParse ("\x7b\"a\": 1, \"b\": \"x\"\x7d")
    = some (.obj [("a", .num (.rat 1)), ("b", .str ("x"))]) := rfl
example : jsonParse ("\x7b\"a\": tru\x7d") = none := rfl
example : jsonParse ("[1, \"two\", null]")
    = some (.arr [.num (.rat 1), .str ("two"), .null]) := rfl
example : jsonParse ("not json") = none := rfl

/-! ## extractEmailFromText (src/index.js lines 224-228) -/

/-- Largest index `l ≥ 1` into `dom` such that `dom` has a dot at `l`
followed by at least two ASCII letters: models the backtracking of the
greedy `[a-zA-Z0-9.-]+` against the following `\.[a-zA-Z]\x7b2,\x7d` in the
unanchored email-scanning regex of line 225. The argument counts down
from `dom.length - 1`. -/
def bestDotAux (dom : List Char) : Nat → Option Nat
  | 0 => none
  | k + 1 =>
    if dom.get? (k + 1) = some '.' ∧ ((dom.drop (k + 2)).takeWhile Char.isAlpha).length ≥ 2
    then some (k + 1)
    else bestDotAux dom k

/-- Try to match the email pattern starting exactly at the head of `cs`;
returns the matched characters. Both character classes exclude `@`, so the
local part is the maximal run of local characters, which must be nonempty
and immediately followed by `@`; the domain is split at the best (largest)
feasible dot. -/
def matchEmailAt (cs : List Char) : Option (List Char) :=
  let loc := cs.takeWhile isLocalChar
  if loc.isEmpty then none
  else
    match cs.drop loc.length with
    | '@' :: rest =>
      let dom := rest.takeWhile isDomainChar
      match bestDotAux dom (dom.length - 1) with
      | none => none
      | some l =>
        some (loc ++ '@' :: (dom.take l ++ '.' :: (dom.drop (l + 1)).takeWhile Char.isAlpha))
    | _ => none

/-- Leftmost match: try each start position from the left, as the regex
engine does. -/
def scanEmailAux : List Char → Option (List Char)
  | [] => none
  | c :: rest =>
    match matchEmailAt (c :: rest) with
    | some m => some m
    | none => scanEmailAux rest

/-- Embedding of `extractEmailFromText`: first match of the unanchored
email regex, lowercased; `none` models the `null` return. -/
def extractEmailFromText (text : String) : Option String :=
  (scanEmailAux text.data).map (fun m => ⟨m.map Char.toLower⟩)

example : extractEmailFromText ("reach me at Bob.Smith+x@Mail.Example.COM, thanks")
    = some ("bob.smith+x@mail.example.com") := rfl
example : extractEmailFromText ("no at-sign here") = none := rfl
example : extractEmailFromText ("xy@@c.co") = none := rfl
example : extractEmailFromText ("##ab@c.co!") = some ("ab@c.co") := rfl

/-! ## cleanGeminiJson (src/index.js lines 146-182) -/

/-- Embedding of `cleanGeminiJson`: strip a leading Markdown code fence
(with its closing fence when present), then isolate the substring between
the first opening brace and the last closing brace when such a pair
exists in the right order. -/
def cleanGeminiJson (raw : String) : String :=
  let c0 := jsTrim raw
  let c1 : String :=
    if listStartsWith ("```json".data) c0.data then
      match findSubFrom ("```".data) c0.data 7 with
      | some j => jsTrim ⟨(c0.data.take j).drop 7⟩
      | none => jsTrim ⟨c0.data.drop 7⟩
    else if listStartsWith ("```".data) c0.data then
      match findSubFrom ("```".data) c0.data 3 with
      | some j => jsTrim ⟨(c0.data.take j).drop 3⟩
      | none => jsTrim ⟨c0.data.drop 3⟩
    else c0
  match c1.data.findIdx? (· = Char.ofNat 123), lastIndexOfChar (Char.ofNat 125) c1.data with
  | some a, some b => if a < b then ⟨(c1.data.take (b + 1)).drop a⟩ else c1
  | some _, none => c1
  | none, _ => c1

example : cleanGeminiJson ("```json\n\x7b\"a\": 1\x7d\n``` trailing prose")
    = "\x7b\"a\": 1\x7d" := rfl
example : cleanGeminiJson ("noise before \x7b\"a\": 1\x7d noise after")
    = "\x7b\"a\": 1\x7d" := rfl
example : cleanGeminiJson ("``` \x7b\"a\": 2\x7d ```") = "\x7b\"a\": 2\x7d" := rfl

/-! ## parseWithGemini (src/index.js lines 232-544) -/

/-- The behaviours of the `model.generateContent` call (plus the
`result.response.text()` access) that the adapter distinguishes. -/
inductive EvalOutcome where
  | malformedResult
  | raw (s : String)
  | throwErr (msg : String)

/-- A JS exception escaping an embedded function. -/
inductive JsThrow where
  | referenceError (name : String)

def JsThrow.message : JsThrow → String
  | .referenceError n => n ++ " is not defined"

/-- The engine-specific `SyntaxError` message of a failed `JSON.parse`,
interpolated into the `JSON Parse Failed` summary text; modelled as a
fixed constant since no claim depends on its exact content. -/
def jsonParseErrMsg : String := "Unexpected token in JSON"

def optEmailVal : Option String → JSVal
  | some e => .str e
  | none => .null

/-- Payload returned when the API key is missing (lines 319-331). -/
def apiKeyMissingPayload (u : String) : CandidateInput :=
  { name := .str ("API Key Missing")
    email := .str ("api_key_missing_" ++ u ++ "@example.com")
    phone := .str ("N/A")
    location := .str ("N/A")
    score := .num (.rat 0)
    parsedText := .str ("Gemini API Key is not configured. Parsing skipped.")
    skills := .arr []
    experienceYears := .num (.rat 0)
    jobTitle := .str ("API Key Missing")
    education := .str ("N/A") }

/-- Payload returned when the API result has no usable response object
(lines 443-455). -/
def apiNoResponsePayload (extractedEmail : Option String) (u : String) : CandidateInput :=
  { name := .str ("API No Response")
    email := jsOr (optEmailVal extractedEmail) (.str ("api_no_response_" ++ u ++ "@example.com"))
    phone := .str ("N/A")
    location := .str ("N/A")
    score := .num (.rat 0)
    parsedText := .str ("Gemini API returned no response or malformed response.")
    skills := .arr []
    experienceYears := .num (.rat 0)
    jobTitle := .str ("API Error")
    education := .str ("N/A") }

/-- Payload returned when the reply is empty after cleaning (lines 466-477). -/
def emptyAIResponsePayload (extractedEmail : Option String) (u : String) : CandidateInput :=
  { name := .str ("Empty AI Response")
    email := jsOr (optEmailVal extractedEmail) (.str ("empty_ai_response_" ++ u ++ "@example.com"))
    phone := .str ("N/A")
    location := .str ("N/A")
    score := .num (.rat 0)
    parsedText := .str ("Gemini returned empty content.")
    skills := .arr []
    experienceYears := .num (.rat 0)
    jobTitle := .str ("Empty Response")
    education := .str ("N/A") }

/-- Payload returned when `JSON.parse` throws (lines 499-510). -/
def jsonParseFailedPayload (extractedEmail : Option String) (u cleaned : String) :
    CandidateInput :=
  { name := .str ("JSON Parse Failed")
    email := jsOr (optEmailVal extractedEmail) (.str ("json_parse_failed_" ++ u ++ "@example.com"))
    phone := .str ("N/A")
    location := .str ("N/A")
    score := .num (.rat 0)
    parsedText := .str ("Failed to parse Gemini output as JSON: " ++ jsonParseErrMsg
      ++ ". Raw (partial): " ++ jsTake cleaned 200 ++ "...")
    skills := .arr []
    experienceYears := .num (.rat 0)
    jobTitle := .str ("JSON Parse Failed")
    education := .str ("N/A") }

/-- Payload built from a successfully parsed reply (lines 483-495): the
email scanned from the resume text takes precedence over the one reported
by the evaluator. -/
def successPayload (extractedEmail : Option String) (parsed : JSVal) : CandidateInput :=
  { name := jsOr (parsed.getField ("name")) (.str ("N/A"))
    email := jsOr (optEmailVal extractedEmail)
      (jsOr (parsed.getField ("email")) (.str ("N/A")))
    phone := jsOr (parsed.getField ("phone")) (.str ("N/A"))
    location := jsOr (parsed.getField ("location")) (.str ("N/A"))
    score := jsOr (parsed.getField ("score")) (.num (.rat 0))
    parsedText := jsOr (parsed.getField ("parsedText")) (.str ("No summary provided."))
    skills := jsOr (parsed.getField ("skills")) (.arr [])
    experienceYears := jsOr (parsed.getField ("experienceYears")) (.num (.rat 0))
    jobTitle := jsOr (parsed.getField ("jobTitle")) (.str ("N/A"))
    education := jsOr (parsed.getField ("education")) (.str ("N/A")) }

/-- Embedding of `parseWithGemini` (src/index.js lines 232-544).

The function body is one big `try`/`catch`. Inside the `try`, line 334
declares `const extractedEmail` — a block-scoped binding visible only
inside the `try` block. The `catch` block (lines 512-543) nevertheless
reads `extractedEmail` while building both of its failure payloads
(lines 518 and 533), so the moment the `catch` block runs — i.e. whenever
the `generateContent` call or the `text()` access throws — evaluating the
payload raises `ReferenceError: extractedEmail is not defined`, which
propagates to the caller. The embedding returns that exception via
`Except.error`; every other path returns a payload.

The arguments: `apiKeyPresent` is the configuration state of line 68;
`text`, `jd` and `rs` are the inputs; `outcome` is the behaviour of the
external evaluator call; `u` is the value an internal `uuidv4()` call
would return. The prompt assembly and the input-size truncation
(lines 337-435) only shape the request sent to the external service,
which the universally-quantified `outcome` already abstracts. -/
def parseWithGemini (apiKeyPresent : Bool) (text _jd _rs : String) (outcome : EvalOutcome)
    (u : String) : Except JsThrow CandidateInput :=
  if ¬ apiKeyPresent then .ok (apiKeyMissingPayload u)
  else
    let extractedEmail := extractEmailFromText text
    match outcome with
    | .throwErr _ => .error (.referenceError ("extractedEmail"))
    | .malformedResult => .ok (apiNoResponsePayload extractedEmail u)
    | .raw raw =>
      let cleaned := cleanGeminiJson raw
      if raw = "" ∨ jsTrim cleaned = "" then .ok (emptyAIResponsePayload extractedEmail u)
      else
        match jsonParse cleaned with
        | none => .ok (jsonParseFailedPayload extractedEmail u cleaned)
        | some parsed => .ok (successPayload extractedEmail parsed)

/-! ## The per-item pipeline of processResumeFiles (src/index.js lines 656-911) -/

/-- A multer file entry as the batch loop reads it: `path` (temp file),
`originalname` and `mimetype`. -/
structure MFile where
  path : String
  originalname : String
  mimetype : String

/-- Outcomes of the external collaborators for one item, plus the values
the per-item `uuidv4()` draws return. `extractR` is the behaviour of
`extractTextFromPdf` (an `await` on the event-based pdf2json collaborator:
either the extracted text or the message of the thrown error); `uploadR`
is the behaviour of the storage upload (the public URL, or the message of
the storage error that `uploadToFirebaseStorage` wraps and rethrows);
`persistFails` tells whether the database `set` call inside
`saveCandidateToRealtimeDatabase` fails (that function catches the error
itself, so the flag only determines whether the record lands in the
store). `uid` is the uuid of line 774; `aux` the single auxiliary uuid the
taken control path can draw (lines 786, 859 or inside `parseWithGemini` —
mutually exclusive paths); `vc1`, `vc2` the draws available to the one
`validateCandidate` call of the path. -/
structure ItemEnv where
  extractR : Except String String
  evalR : EvalOutcome
  uploadR : Except String String
  persistFails : Bool
  uid : String
  aux : String
  vc1 : String
  vc2 : String

/-- The fatal evaluator labels of line 817. -/
def geminiErrorNames : List String :=
  ["API Key Missing", "API No Response", "Empty AI Response", "JSON Parse Failed",
    "Content Blocked", "Parsing Failed"]

/-- What one item contributes: the record pushed onto `batchResults`
(`none` when the guard of line 765 skips the entry), and the records
passed to the persistence collaborator. -/
structure ItemResult where
  record : Option CandidateRecord
  saved : List CandidateRecord

/-- `saveCandidateToRealtimeDatabase` (lines 596-634): it catches every
error internally, so it never throws; a failing `set` just means the
record does not reach the store. -/
def jsSave (env : ItemEnv) (c : CandidateRecord) : List CandidateRecord :=
  if env.persistFails then [] else [c]

/-- Input built for the insufficient-text error record (lines 783-796). -/
def insufficientTextInput (filename : String) (uid aux : String) : CandidateInput :=
  { id := .str uid
    name := .str ("Insufficient Text")
    email := .str ("insufficient_text_" ++ aux ++ "@example.com")
    phone := .str ("N/A")
    location := .str ("N/A")
    score := .num (.rat 0)
    parsedText := .str ("Could not extract enough text from the PDF, or the PDF format was unreadable.")
    skills := .arr []
    jobTitle := .str ("N/A")
    education := .str ("N/A")
    resumeUrl := .str ("File received: " ++ filename) }

/-- Input built in the per-item catch block (lines 855-872) when the local
`candidate` variable is still `null` — which is the case on every
reachable path into that block: extraction threw, or `parseWithGemini`
threw, both before line 808 assigns `candidate`. (The object literal also
carries an `experience: 0` key, which `validateCandidate` never reads.) -/
def catchErrorInput (filename errorMessage : String) (uid aux : String) : CandidateInput :=
  { id := .str uid
    name := .str ("Processing Error")
    email := .str ("processing_error_" ++ aux ++ "@example.com")
    phone := .str ("N/A")
    location := .str ("N/A")
    score := .num (.rat 0)
    parsedText := .str ("An error occurred during processing this file (\x27" ++ filename
      ++ "\x27): " ++ errorMessage)
    skills := .arr []
    jobTitle := .str ("Error")
    education := .str ("N/A")
    approved := .bool false
    resumeUrl := .str ("Processing Failed") }

/-- The message of the error `uploadToFirebaseStorage` rethrows on a
storage failure (line 591). -/
def uploadWrapMsg (filename msg : String) : String :=
  "Failed to upload file \x27" ++ filename ++ "\x27 to Firebase Storage: " ++ msg

/-- The note appended to `parsedText` when the upload fails (line 838):
`substring(0, Math.min(length, 200))` of the upload error message,
followed by an ellipsis. -/
def uploadFailNote (filename msg : String) : String :=
  "\n\nNote: Failed to upload resume file: "
    ++ jsTake (uploadWrapMsg filename msg) (min (uploadWrapMsg filename msg).data.length 200)
    ++ "..."

/-- Push one record onto the batch results, also handing it to the
persistence collaborator. -/
def pushSaved (env : ItemEnv) (c : CandidateRecord) : ItemResult := ⟨some c, jsSave env c⟩

/-- Lines 816-843: skip the upload for a record whose name is one of the
fatal evaluator labels; otherwise attempt the upload, recording either the
public URL or the upload-failure sentinel plus a note in the summary. The
record is saved and pushed in every branch. -/
def processUploadStage (env : ItemEnv) (file : MFile) (cand : CandidateRecord) : ItemResult :=
  if cand.name ∈ geminiErrorNames then pushSaved env cand
  else
    match env.uploadR with
    | .ok url => pushSaved env { cand with resumeUrl := JSVal.str url }
    | .error m => pushSaved env { cand with
        resumeUrl := JSVal.str ("Upload Failed"),
        parsedText := cand.parsedText ++ uploadFailNote file.originalname m }

/-- The body of the per-file loop of `processResumeFiles`
(src/index.js lines 764-889) for a single multer entry. -/
def processOneFile (apiKeyPresent : Bool) (jd rs : String) (file : MFile) (env : ItemEnv) :
    ItemResult :=
  if file.path = "" ∨ file.originalname = "" then ⟨none, []⟩
  else
    match env.extractR with
    | .error msg =>
      pushSaved env (validateCandidate
        (catchErrorInput file.originalname
          (if msg = "" then "An unexpected error occurred during file processing." else msg)
          env.uid env.aux)
        env.vc1 env.vc2)
    | .ok text =>
      if (jsTrim text).data.length < 50 then
        pushSaved env (validateCandidate (insufficientTextInput file.originalname env.uid env.aux)
          env.vc1 env.vc2)
      else
        match parseWithGemini apiKeyPresent text jd rs env.evalR env.aux with
        | .error e =>
          pushSaved env (validateCandidate
            (catchErrorInput file.originalname e.message env.uid env.aux) env.vc1 env.vc2)
        | .ok payload =>
          processUploadStage env file (validateCandidate
            { payload with id := .str env.uid, approved := .bool false, resumeUrl := .str ("N/A") }
            env.vc1 env.vc2)

/-! ## processInBatches (src/index.js lines 637-653) -/

/-- Embedding of `processInBatches`: slice the items into consecutive
`batchSize`-sized groups, run the batch function on each, concatenate the
results in order, and count the `delay(5000)` cooldown waits — one is
inserted exactly when `i + batchSize < items.length`, that is, when more
items follow the current batch. The `batchSize = 0` guard is unreachable
in the source (the orchestrator always passes 5; with 0 the JS loop would
not terminate). -/
def processInBatches (batchSize : Nat) (f : List α → List β) : List α → List β × Nat
  | [] => ([], 0)
  | x :: xs =>
    match batchSize with
    | 0 => ([], 0)
    | bs + 1 =>
      let batch := (x :: xs).take (bs + 1)
      let rest := (x :: xs).drop (bs + 1)
      let tailRes := processInBatches (bs + 1) f rest
      (f batch ++ tailRes.1, (if rest.isEmpty then 0 else 1) + tailRes.2)
termination_by items => items.length
decreasing_by
  simp only [List.length_drop, List.length_cons]
  omega

/-- The partition of a list into consecutive chunks of size `n` (last chunk
possibly smaller), stated the way the spec describes the batching; the
theorem for C8 proves `processInBatches` refines it. -/
def specChunks (n : Nat) : List α → List (List α)
  | [] => []
  | x :: xs =>
    match n with
    | 0 => []
    | m + 1 => (x :: xs).take (m + 1) :: specChunks (m + 1) ((x :: xs).drop (m + 1))
termination_by items => items.length
decreasing_by
  simp only [List.length_drop, List.length_cons]
  omega

/-! ## The final sort (src/index.js lines 898-899) -/

/-- The ES `SortCompare` relation induced by the comparator
`(a, b) => b.score - a.score`: `sortLe a b` holds when the comparator
result is nonpositive or `NaN` (per the spec a `NaN` comparator value is
treated as `+0`), i.e. when `a` may stay before `b`. -/
def sortLe (a b : CandidateRecord) : Bool :=
  match jnumSub b.score a.score with
  | .rat q => decide (q ≤ 0)
  | .ninf => true
  | .inf => false
  | .nan => true

/-- Stable insertion step: place `x` before the first element it need not
follow. -/
def sortInsert (x : CandidateRecord) : List CandidateRecord → List CandidateRecord
  | [] => [x]
  | y :: ys => if sortLe x y then x :: y :: ys else y :: sortInsert x ys

/-- Embedding of `candidates.sort((a, b) => b.score - a.score)`:
`Array.prototype.sort` with a consistent comparator is specified to
produce the stable order, which this insertion sort computes. -/
def jsSortCandidates : List CandidateRecord → List CandidateRecord
  | [] => []
  | x :: xs => sortInsert x (jsSortCandidates xs)

/-! ## processResumeFiles (src/index.js lines 656-911) -/

/-- The configuration checked once at the head of `processResumeFiles`
(line 664): Gemini API key present, firebase-admin app initialized,
database and bucket handles obtained. -/
structure Config where
  apiKeyPresent : Bool
  adminInitialized : Bool
  databaseOk : Bool
  bucketOk : Bool

def Config.ok (c : Config) : Bool :=
  c.apiKeyPresent && c.adminInitialized && c.databaseOk && c.bucketOk

/-- The run-level result object. `validPdfProcessed` and
`invalidFilesSkipped` are optional because two of the return sites omit
those keys. -/
structure RunResult where
  success : Bool
  totalProcessed : Nat
  validPdfProcessed : Option Nat
  invalidFilesSkipped : Option Nat
  candidates : List CandidateRecord
  message : String

/-- The error record built for every received file when the configuration
check fails (lines 669-692). -/
def configErrorCandidate (cfg : Config) (fe : MFile × ItemEnv) : CandidateRecord :=
  let gem := ¬ cfg.apiKeyPresent
  let reason := if gem then "Gemini API Key is not configured."
    else "Firebase Admin SDK failed to initialize."
  validateCandidate
    { id := .str fe.2.uid
      name := .str (if gem then "API Key Missing" else "Service Error")
      email := .str ((if gem then "api_key_missing" else "service_error")
        ++ "_" ++ fe.2.uid ++ "@example.com")
      phone := .str ("N/A")
      location := .str ("N/A")
      score := .num (.rat 0)
      parsedText := .str ("Processing skipped: " ++ reason ++ " File: " ++ fe.1.originalname)
      skills := .arr []
      jobTitle := .str ("Error")
      education := .str ("N/A")
      resumeUrl := .str ("File received: " ++ fe.1.originalname) }
    fe.2.vc1 fe.2.vc2

/-- Embedding of `processResumeFiles` (src/index.js lines 656-911). Each
received file is paired with the outcomes its external calls would
produce. The records the non-PDF branch (lines 722-739) saves are
side-channel only (they are never added to `candidates`), so they are not
tracked here. -/
def processResumeFiles (cfg : Config) (items : List (MFile × ItemEnv)) (jd rs : String) :
    RunResult :=
  if ¬ cfg.ok then
    { success := false
      totalProcessed := items.length
      validPdfProcessed := none
      invalidFilesSkipped := none
      candidates := items.map (configErrorCandidate cfg)
      message := "Processing aborted: " ++ (if ¬ cfg.apiKeyPresent
        then "Gemini API Key is not configured."
        else "Firebase Admin SDK failed to initialize.") }
  else if items.length = 0 then
    { success := true
      totalProcessed := 0
      validPdfProcessed := none
      invalidFilesSkipped := none
      candidates := []
      message := "No files were provided for processing." }
  else
    let pdfFiles := items.filter (fun fe => fe.1.mimetype = "application/pdf")
    let nonPdf := items.filter (fun fe => fe.1.mimetype ≠ "application/pdf")
    if pdfFiles.length = 0 then
      { success := true
        totalProcessed := items.length
        validPdfProcessed := some 0
        invalidFilesSkipped := some nonPdf.length
        candidates := []
        message := "No valid PDF files were provided for processing." }
    else
      let run := processInBatches 5
        (fun batch => batch.filterMap (fun fe => (processOneFile cfg.apiKeyPresent jd rs fe.1 fe.2).record))
        pdfFiles
      { success := true
        totalProcessed := items.length
        validPdfProcessed := some run.1.length
        invalidFilesSkipped := some nonPdf.length
        candidates := jsSortCandidates run.1
        message := "Processing complete." }

/-! ## The extraction strategy selector of spec §4.1

The spec describes the repository as three near-duplicate server variants;
`src/` carries only the `index.js` variant, whose `extractTextFromPdf`
(lines 84-143) uses the primary (local pdf2json) backend only. The variant
implementing the "enhanced" cloud fallback is not part of `src/`, so the
selector is modelled here from the spec text. -/

/-- Modelled from the spec: the §7 `ExtractionError` taxonomy — a backend
failure, a combined failure referencing both causes, or the
insufficient-content subtype. -/
inductive ExtractionError where
  | backend (msg : String)
  | combined (primaryMsg fallbackMsg : String)
  | insufficientContent
deriving DecidableEq, Repr

/-- Modelled from the spec: the extraction strategy selector of §4.1.
`primaryR` and `fallbackR` are the outcomes the two backends would
produce for this document. The primary backend is always consulted first;
on its failure the fallback runs only when `enhanced` is true, a double
failure yields the combined error, and any successfully extracted text is
subjected to the 50-character minimum on its trimmed length. -/
def extractWithStrategy (enhanced : Bool) (primaryR fallbackR : Except String String) :
    Except ExtractionError String :=
  match primaryR with
  | .ok t => if (jsTrim t).data.length < 50 then .error .insufficientContent else .ok t
  | .error e1 =>
    if enhanced then
      match fallbackR with
      | .ok t => if (jsTrim t).data.length < 50 then .error .insufficientContent else .ok t
      | .error e2 => .error (.combined e1 e2)
    else .error (.backend e1)

/-- The record the per-item pipeline normalizes out of a successful
evaluation payload (line 808): the payload with the loop-generated id, the
`approved: false` default and the `resumeUrl` placeholder forced in. -/
def evaluatedCand (payload : CandidateInput) (env : ItemEnv) : CandidateRecord :=
  validateCandidate
    { payload with
      id := .str env.uid
      approved := .bool false
      resumeUrl := .str ("N/A") }
    env.vc1 env.vc2

/-! ## Lemmas about the string model -/

theorem charOfNatToNat (n : Nat) (h : n < 55296) : (Char.ofNat n).toNat = n := by
  have hv : n.isValidChar := Or.inl h
  simp [Char.ofNat, hv, Char.ofNatAux, Char.toNat, UInt32.toNat]

theorem toLower_toLower (c : Char) : c.toLower.toLower = c.toLower := by
  unfold Char.toLower
  by_cases h : c.toNat ≥ 65 ∧ c.toNat ≤ 90
  · rw [if_pos h, charOfNatToNat _ (by omega)]
    rw [if_neg (by omega)]
  · rw [if_neg h, if_neg h]

theorem not_ws_of_lower_range (c : Char) (h1 : 97 ≤ c.toNat) (h2 : c.toNat ≤ 122) :
    c.isWhitespace = false := by
  have hs : c ≠ ' ' := fun he => by subst he; revert h1; decide
  have ht : c ≠ '\t' := fun he => by subst he; revert h1; decide
  have hr : c ≠ '\r' := fun he => by subst he; revert h1; decide
  have hn : c ≠ '\n' := fun he => by subst he; revert h1; decide
  simp [Char.isWhitespace, hs, ht, hr, hn]

theorem not_ws_of_upper_range (c : Char) (h : c.toNat ≥ 65 ∧ c.toNat ≤ 90) :
    c.isWhitespace = false := by
  have hs : c ≠ ' ' := fun he => by subst he; revert h; decide
  have ht : c ≠ '\t' := fun he => by subst he; revert h; decide
  have hr : c ≠ '\r' := fun he => by subst he; revert h; decide
  have hn : c ≠ '\n' := fun he => by subst he; revert h; decide
  simp [Char.isWhitespace, hs, ht, hr, hn]

theorem ws_toLower (c : Char) : c.toLower.isWhitespace = c.isWhitespace := by
  unfold Char.toLower
  by_cases h : c.toNat ≥ 65 ∧ c.toNat ≤ 90
  · rw [if_pos h]
    have h1 : (Char.ofNat (c.toNat + 32)).toNat = c.toNat + 32 := charOfNatToNat _ (by omega)
    rw [not_ws_of_lower_range _ (by omega) (by omega), not_ws_of_upper_range _ h]
  · rw [if_neg h]

theorem jsWs_toLower (c : Char) : jsWs c.toLower = jsWs c := ws_toLower c

theorem dropWhile_dropWhile (p : Char → Bool) (l : List Char) :
    (l.dropWhile p).dropWhile p = l.dropWhile p := by
  induction l with
  | nil => simp
  | cons x xs ih =>
    by_cases h : p x
    · simp [List.dropWhile_cons, h, ih]
    · simp [List.dropWhile_cons, h]

theorem head?_dropWhile (p : Char → Bool) (l : List Char) (c : Char)
    (h : (l.dropWhile p).head? = some c) : p c = false := by
  induction l with
  | nil => simp at h
  | cons x xs ih =>
    by_cases hx : p x
    · rw [List.dropWhile_cons, if_pos hx] at h
      exact ih h
    · rw [List.dropWhile_cons, if_neg hx] at h
      simp at h
      subst h
      simpa using hx

theorem dropWhile_eq_self_of_head? (p : Char → Bool) (l : List Char)
    (h : ∀ c, l.head? = some c → p c = false) : l.dropWhile p = l := by
  cases l with
  | nil => simp
  | cons x xs =>
    have := h x (by simp)
    simp [List.dropWhile_cons, this]

theorem trimL_prefix_dropWhile (cs : List Char) : trimL cs <+: cs.dropWhile jsWs := by
  unfold trimL
  rw [← List.reverse_reverse (cs.dropWhile jsWs)]
  rw [List.reverse_suffix.symm]
  simp only [List.reverse_reverse]
  exact List.dropWhile_suffix jsWs

theorem head?_trimL (cs : List Char) (c : Char) (h : (trimL cs).head? = some c) :
    jsWs c = false := by
  have hpre := trimL_prefix_dropWhile cs
  obtain ⟨r, hr⟩ := hpre
  cases htl : trimL cs with
  | nil => rw [htl] at h; simp at h
  | cons a t =>
    rw [htl] at h hr
    simp at h
    subst h
    apply head?_dropWhile jsWs cs
    rw [← hr]
    simp

theorem trimL_idem (cs : List Char) : trimL (trimL cs) = trimL cs := by
  have h1 : (trimL cs).dropWhile jsWs = trimL cs :=
    dropWhile_eq_self_of_head? _ _ (head?_trimL cs)
  show ((((trimL cs).dropWhile jsWs).reverse).dropWhile jsWs).reverse = trimL cs
  rw [h1]
  unfold trimL
  rw [List.reverse_reverse, dropWhile_dropWhile]

theorem jsTrim_idem (s : String) : jsTrim (jsTrim s) = jsTrim s := by
  simp [jsTrim, trimL_idem]

theorem trimL_all_not_ws (cs : List Char) (h : ∀ c ∈ cs, jsWs c = false) :
    trimL cs = cs := by
  have h1 : cs.dropWhile jsWs = cs :=
    dropWhile_eq_self_of_head? _ _ (by
      intro c hc
      cases cs with
      | nil => simp at hc
      | cons a t => simp at hc; subst hc; exact h a (by simp))
  unfold trimL
  rw [h1]
  rw [dropWhile_eq_self_of_head? _ _ (by
    intro c hc
    cases hrev : cs.reverse with
    | nil => rw [hrev] at hc; simp at hc
    | cons a t =>
      rw [hrev] at hc
      have hca : c = a := by
        simp at hc
        exact hc.symm
      subst hca
      exact h c (by rw [← List.mem_reverse, hrev]; simp))]
  simp

theorem jsTrim_of_no_ws (s : String) (h : ∀ c ∈ s.data, jsWs c = false) : jsTrim s = s := by
  simp [jsTrim, trimL_all_not_ws s.data h]

theorem trimL_map_toLower (cs : List Char) :
    trimL (cs.map Char.toLower) = (trimL cs).map Char.toLower := by
  have hcomp : (jsWs ∘ Char.toLower) = jsWs := by
    funext c
    simp [Function.comp, jsWs_toLower]
  unfold trimL
  rw [List.dropWhile_map, hcomp, ← List.map_reverse, List.dropWhile_map, hcomp,
    ← List.map_reverse]

theorem jsTrim_jsLower (s : String) : jsTrim (jsLower s) = jsLower (jsTrim s) := by
  simp [jsTrim, jsLower, trimL_map_toLower]

theorem jsLower_idem (s : String) : jsLower (jsLower s) = jsLower s := by
  simp only [jsLower]
  congr 1
  rw [List.map_map]
  apply List.map_congr_left
  intro c _
  exact toLower_toLower c

theorem data_append (a b : String) : (a ++ b).data = a.data ++ b.data :=
  String.data_append a b

theorem jsLower_append (a b : String) : jsLower (a ++ b) = jsLower a ++ jsLower b := by
  apply String.ext
  simp [jsLower, data_append]


/-! ## Lemmas about email validity and the fallback addresses -/

theorem splitFirstAt_append (c : Char) (xs ys : List Char) (h : c ∉ xs) :
    splitFirstAt c (xs ++ c :: ys) = some (xs, ys) := by
  induction xs with
  | nil => simp [splitFirstAt]
  | cons a t ih =>
    have hac : a ≠ c := by
      intro he
      exact h (by simp [he])
    simp only [List.cons_append, splitFirstAt, if_neg hac]
    show Option.map _ (splitFirstAt c (t ++ c :: ys)) = _
    rw [ih (fun hm => h (by simp [hm]))]
    rfl

theorem isLocalChar_no_at (cs : List Char) (h : cs.all isLocalChar = true) : '@' ∉ cs := by
  intro hm
  have := List.all_eq_true.mp h '@' hm
  revert this
  decide

/-- A nonempty local part made only of local characters, followed by
`@gmail.com`, passes the validation regex. -/
theorem emailValid_local_gmail (s : String) (hne : s.data ≠ [])
    (hloc : s.data.all isLocalChar = true) : emailValid (s ++ "@gmail.com") = true := by
  have hdata : (s ++ "@gmail.com").data = s.data ++ '@' :: ("gmail.com".data) := by
    rw [data_append]
  unfold emailValid
  rw [hdata, splitFirstAt_append _ _ _ (isLocalChar_no_at s.data hloc)]
  show (decide (s.data ≠ []) && s.data.all isLocalChar && _) = true
  rw [Bool.and_eq_true, Bool.and_eq_true]
  exact ⟨⟨decide_eq_true hne, hloc⟩, by rfl⟩

/-- Same statement for the `@example.com` domain used by the error-path
fallback addresses. -/
theorem emailValid_local_example (s : String) (hne : s.data ≠ [])
    (hloc : s.data.all isLocalChar = true) : emailValid (s ++ "@example.com") = true := by
  have hdata : (s ++ "@example.com").data = s.data ++ '@' :: ("example.com".data) := by
    rw [data_append]
  unfold emailValid
  rw [hdata, splitFirstAt_append _ _ _ (isLocalChar_no_at s.data hloc)]
  show (decide (s.data ≠ []) && s.data.all isLocalChar && _) = true
  rw [Bool.and_eq_true, Bool.and_eq_true]
  exact ⟨⟨decide_eq_true hne, hloc⟩, by rfl⟩

theorem isAlpha_of_hex_range (c : Char) (h1 : 97 ≤ c.toNat) (h2 : c.toNat ≤ 102) :
    c.isAlpha = true := by
  unfold Char.isAlpha Char.isLower
  have g1 : (97 : UInt32) ≤ c.val := by
    rw [UInt32.le_def, BitVec.le_def]
    simpa [Char.toNat, UInt32.toNat] using h1
  have g3 : c.val ≤ (122 : UInt32) := by
    rw [UInt32.le_def, BitVec.le_def]
    have : c.toNat ≤ 122 := by omega
    simpa [Char.toNat, UInt32.toNat] using this
  simp [g1, g3]

theorem uuidLike_all_local (u : String) (h : uuidLike u = true) :
    u.data.all isLocalChar = true := by
  unfold uuidLike at h
  rw [Bool.and_eq_true] at h
  apply List.all_eq_true.mpr
  intro c hc
  have hcu := List.all_eq_true.mp h.2 c hc
  rw [Bool.or_eq_true, Bool.or_eq_true] at hcu
  unfold isLocalChar
  rcases hcu with (hd | hf) | hh
  · simp [hd]
  · rw [Bool.and_eq_true] at hf
    have h1 := of_decide_eq_true hf.1
    have h2 := of_decide_eq_true hf.2
    simp [isAlpha_of_hex_range c h1 h2]
  · simp [of_decide_eq_true hh]

theorem digit_toNat_range (c : Char) (h : c.isDigit = true) :
    48 ≤ c.toNat ∧ c.toNat ≤ 57 := by
  unfold Char.isDigit at h
  rw [Bool.and_eq_true] at h
  have h1 : (48 : UInt32) ≤ c.val := of_decide_eq_true h.1
  have h2 : c.val ≤ (57 : UInt32) := of_decide_eq_true h.2
  rw [UInt32.le_def, BitVec.le_def] at h1 h2
  constructor
  · simpa [Char.toNat, UInt32.toNat] using h1
  · simpa [Char.toNat, UInt32.toNat] using h2

theorem toLower_fix_of_not_upper (c : Char) (h : ¬ (65 ≤ c.toNat ∧ c.toNat ≤ 90)) :
    c.toLower = c := by
  unfold Char.toLower
  rw [if_neg (by omega)]

theorem uuidLike_lower_fix (u : String) (h : uuidLike u = true) : jsLower u = u := by
  unfold uuidLike at h
  rw [Bool.and_eq_true] at h
  apply String.ext
  show u.data.map Char.toLower = u.data
  have hfix : ∀ c ∈ u.data, Char.toLower c = c := by
    intro c hc
    have hcu := List.all_eq_true.mp h.2 c hc
    rw [Bool.or_eq_true, Bool.or_eq_true] at hcu
    rcases hcu with (hd | hf) | hh
    · have := digit_toNat_range c hd
      exact toLower_fix_of_not_upper c (by omega)
    · rw [Bool.and_eq_true] at hf
      have h1 := of_decide_eq_true hf.1
      exact toLower_fix_of_not_upper c (by omega)
    · have hch : c = '-' := of_decide_eq_true hh
      subst hch
      decide
  calc u.data.map Char.toLower = u.data.map id := List.map_congr_left hfix
  _ = u.data := List.map_id u.data

theorem uuidLike_no_ws (u : String) (h : uuidLike u = true) :
    ∀ c ∈ u.data, jsWs c = false := by
  unfold uuidLike at h
  rw [Bool.and_eq_true] at h
  intro c hc
  have hcu := List.all_eq_true.mp h.2 c hc
  rw [Bool.or_eq_true, Bool.or_eq_true] at hcu
  rcases hcu with (hd | hf) | hh
  · have hd2 := digit_toNat_range c hd
    unfold jsWs
    have hs : c ≠ ' ' := fun he => by subst he; exact absurd hd2 (by decide)
    have ht : c ≠ '\t' := fun he => by subst he; exact absurd hd2 (by decide)
    have hr : c ≠ '\r' := fun he => by subst he; exact absurd hd2 (by decide)
    have hn : c ≠ '\n' := fun he => by subst he; exact absurd hd2 (by decide)
    simp [Char.isWhitespace, hs, ht, hr, hn]
  · rw [Bool.and_eq_true] at hf
    exact not_ws_of_lower_range c (of_decide_eq_true hf.1)
      (by have := of_decide_eq_true hf.2; omega)
  · have hch : c = '-' := of_decide_eq_true hh
    subst hch
    decide

theorem emailValid_ne_empty (s : String) (h : emailValid s = true) : s ≠ "" := by
  intro he
  subst he
  revert h
  decide

/-! ## Lemmas about usableStr and string stability -/

theorem usableStr_roundtrip (v : JSVal) (t : String) (h : usableStr v = some t) :
    usableStr (.str t) = some t := by
  match v with
  | .undef | .null | .bool _ | .num _ | .arr _ | .obj _ => simp [usableStr] at h
  | .str s =>
    simp only [usableStr] at h
    split at h
    next hc =>
      have ht : t = jsTrim s := by
        injection h with h2
        exact h2.symm
      subst ht
      simp only [usableStr]
      rw [if_pos ⟨hc.2.1, by rw [jsTrim_idem]; exact hc.2.1, by rw [jsTrim_idem]; exact hc.2.2⟩,
        jsTrim_idem]
    next => simp at h

theorem usableStr_unknown : usableStr (.str ("Unknown")) = some ("Unknown") := by decide

theorem usableStr_na : usableStr (.str ("N/A")) = none := by decide

/-- Round trip of the four sentinel-or-trimmed fields (phone, location,
jobTitle, education). -/
theorem usableStr_getD_na (v : JSVal) :
    (usableStr (.str ((usableStr v).getD ("N/A")))).getD ("N/A") = (usableStr v).getD ("N/A") := by
  cases h : usableStr v with
  | none => simp [usableStr_na]
  | some t => simp [usableStr_roundtrip v t h]

theorem usableStr_getD_unknown (v : JSVal) :
    usableStr (.str ((usableStr v).getD ("Unknown"))) = some ((usableStr v).getD ("Unknown")) := by
  cases h : usableStr v with
  | none => simp [usableStr_unknown]
  | some t => simp [usableStr_roundtrip v t h]

theorem stripWs_no_ws (s : String) : ∀ c ∈ (jsStripWs s).data, jsWs c = false := by
  intro c hc
  simp only [jsStripWs] at hc
  have := List.of_mem_filter hc
  simpa using this

theorem lower_no_ws (s : String) (h : ∀ c ∈ s.data, jsWs c = false) :
    ∀ c ∈ (jsLower s).data, jsWs c = false := by
  intro c hc
  simp only [jsLower, List.mem_map] at hc
  obtain ⟨a, ha, rfl⟩ := hc
  rw [jsWs_toLower]
  exact h a ha

theorem append_no_ws (a b : String) (ha : ∀ c ∈ a.data, jsWs c = false)
    (hb : ∀ c ∈ b.data, jsWs c = false) : ∀ c ∈ (a ++ b).data, jsWs c = false := by
  intro c hc
  rw [data_append, List.mem_append] at hc
  rcases hc with h | h
  · exact ha c h
  · exact hb c h

theorem gmail_no_ws : ∀ c ∈ ("@gmail.com").data, jsWs c = false := by decide

theorem example_no_ws : ∀ c ∈ ("@example.com").data, jsWs c = false := by decide

theorem append_ne_empty_right (a b : String) (hb : b ≠ "") : a ++ b ≠ "" := by
  intro he
  apply hb
  have : (a ++ b).data = [] := by rw [he]
  rw [data_append, List.append_eq_nil] at this
  exact String.ext this.2

theorem string_append_assoc (a b c : String) : (a ++ b) ++ c = a ++ (b ++ c) := by
  apply String.ext
  simp [data_append, List.append_assoc]

/-- Strings without whitespace that are fixed by lowercasing are fixed by
the (trim then lowercase) normalization of the email input. -/
theorem lower_trim_fix (e : String) (hw : ∀ c ∈ e.data, jsWs c = false)
    (hl : jsLower e = e) : jsLower (jsTrim e) = e := by
  rw [jsTrim_of_no_ws e hw, hl]

theorem jsLower_gmail : jsLower ("@gmail.com") = "@gmail.com" := by decide

theorem jsLower_unknown_prefix : jsLower ("unknown_") = "unknown_" := by decide

/-! ## Stability of the normalized email under re-normalization -/

theorem vcEmailInput_shape (x : CandidateInput) (h : vcEmailInput x ≠ "") :
    ∃ s, x.email = .str s ∧ s ≠ "" ∧ vcEmailInput x = jsLower (jsTrim s) := by
  unfold vcEmailInput at *
  match hx : x.email with
  | .undef | .null | .bool _ | .num _ | .arr _ | .obj _ => rw [hx] at h; exact absurd rfl h
  | .str s =>
    by_cases hs : s = ""
    · subst hs
      rw [hx] at h
      exact absurd rfl h
    · refine ⟨s, rfl, hs, ?_⟩
      show (if s ≠ "" then jsLower (jsTrim s) else "") = jsLower (jsTrim s)
      rw [if_pos hs]

theorem lower_trim_fix_of_vcEmail (x : CandidateInput) (u2 : String)
    (hu2 : uuidLike u2 = true) : jsLower (jsTrim (vcEmail x u2)) = vcEmail x u2 := by
  unfold vcEmail
  split
  next hkept =>
    obtain ⟨s, _, _, hshape⟩ := vcEmailInput_shape x hkept.1
    rw [hshape, jsTrim_jsLower, jsTrim_idem, jsLower_idem]
  next =>
    unfold vcFallbackEmail
    cases husable : usableStr x.name with
    | some t =>
      apply lower_trim_fix
      · exact append_no_ws _ _ (lower_no_ws _ (stripWs_no_ws t)) gmail_no_ws
      · rw [jsLower_append, jsLower_idem, jsLower_gmail]
    | none =>
      apply lower_trim_fix
      · apply append_no_ws
        · apply append_no_ws
          · decide
          · exact uuidLike_no_ws u2 hu2
        · exact gmail_no_ws
      · rw [jsLower_append, jsLower_append, jsLower_unknown_prefix,
          uuidLike_lower_fix u2 hu2, jsLower_gmail]

theorem vcEmail_ne_empty (x : CandidateInput) (u2 : String) : vcEmail x u2 ≠ "" := by
  unfold vcEmail
  split
  next hkept => exact hkept.1
  next =>
    unfold vcFallbackEmail
    cases usableStr x.name with
    | some t => exact append_ne_empty_right _ _ (by decide)
    | none => exact append_ne_empty_right _ _ (by decide)

theorem unknown_uuid_valid (u2 : String) (hu2 : uuidLike u2 = true) :
    emailValid ("unknown_" ++ u2 ++ "@gmail.com") = true := by
  have hassoc : "unknown_" ++ u2 ++ "@gmail.com" = ("unknown_" ++ u2) ++ "@gmail.com" := rfl
  rw [hassoc]
  apply emailValid_local_gmail
  · rw [data_append]
    simp
  · rw [data_append, List.all_append]
    rw [Bool.and_eq_true]
    exact ⟨by decide, uuidLike_all_local u2 hu2⟩

/-- Re-normalizing the email a `validateCandidate` output carries yields
the same email (provided the uuid draw really looks like a uuid). -/
theorem vcEmail_roundtrip (x : CandidateInput) (u1 u2 v2 : String)
    (hu2 : uuidLike u2 = true) :
    vcEmail (recordToInput (validateCandidate x u1 u2)) v2 = vcEmail x u2 := by
  have hrec_email : (recordToInput (validateCandidate x u1 u2)).email = .str (vcEmail x u2) :=
    rfl
  have hrec_name : (recordToInput (validateCandidate x u1 u2)).name
      = .str ((usableStr x.name).getD ("Unknown")) := rfl
  have hin : vcEmailInput (recordToInput (validateCandidate x u1 u2))
      = jsLower (jsTrim (vcEmail x u2)) := by
    unfold vcEmailInput
    rw [hrec_email]
    show (if vcEmail x u2 ≠ "" then jsLower (jsTrim (vcEmail x u2)) else "") = _
    rw [if_pos (vcEmail_ne_empty x u2)]
  have hfix := lower_trim_fix_of_vcEmail x u2 hu2
  conv_lhs => unfold vcEmail
  rw [hin, hfix]
  by_cases hv : emailValid (vcEmail x u2) = true
  · rw [if_pos ⟨vcEmail_ne_empty x u2, hv⟩]
  · rw [if_neg (fun hc => hv hc.2)]
    by_cases hkept : (vcEmailInput x ≠ "" ∧ emailValid (vcEmailInput x) = true)
    · exact absurd (by unfold vcEmail; rw [if_pos hkept]; exact hkept.2) hv
    · cases husable : usableStr x.name with
      | some t =>
        have he : vcEmail x u2 = jsLower (jsStripWs t) ++ "@gmail.com" := by
          unfold vcEmail vcFallbackEmail
          rw [if_neg hkept, husable]
        rw [he]
        unfold vcFallbackEmail
        rw [hrec_name]
        simp only [husable, Option.getD_some, usableStr_roundtrip x.name t husable]
      | none =>
        exact absurd (by
          unfold vcEmail vcFallbackEmail
          rw [if_neg hkept, husable]
          exact unknown_uuid_valid u2 hu2) hv

/-! ## Round-trip lemmas for the remaining fields -/

theorem jsOr_of_truthy (a b : JSVal) (h : a.truthy = true) : jsOr a b = a := by
  unfold jsOr
  rw [if_pos h]

theorem jsOr_of_falsy (a b : JSVal) (h : a.truthy = false) : jsOr a b = b := by
  unfold jsOr
  rw [if_neg (by simp [h])]

theorem jsOr_truthy_of_right (a b : JSVal) (hb : b.truthy = true) :
    (jsOr a b).truthy = true := by
  unfold jsOr
  split
  next h => exact h
  next => exact hb

theorem jsOr_roundtrip (a b c : JSVal) (hb : b.truthy = true) :
    jsOr (jsOr a b) c = jsOr a b :=
  jsOr_of_truthy _ _ (jsOr_truthy_of_right a b hb)

theorem str_truthy_of_ne (s : String) (h : s ≠ "") : (JSVal.str s).truthy = true := by
  simp [JSVal.truthy, h]

theorem vcSkills_prop (v : JSVal) : ∀ a ∈ vcSkills v, jsTrim a = a ∧ a ≠ "" := by
  intro a ha
  match v with
  | .undef | .null | .bool _ | .num _ | .str _ | .obj _ => simp [vcSkills] at ha
  | .arr xs =>
    simp only [vcSkills, List.mem_map] at ha
    obtain ⟨w, hw, rfl⟩ := ha
    have hwf := List.of_mem_filter hw
    match w with
    | .undef | .null | .bool _ | .num _ | .arr _ | .obj _ => simp at hwf
    | .str s =>
      refine ⟨jsTrim_idem s, ?_⟩
      simpa using hwf

theorem vcSkills_roundtrip (l : List String) (hl : ∀ a ∈ l, jsTrim a = a ∧ a ≠ "") :
    vcSkills (.arr (l.map .str)) = l := by
  induction l with
  | nil => rfl
  | cons a t ih =>
    have ha := hl a (by simp)
    have hcond : jsTrim a ≠ "" := by rw [ha.1]; exact ha.2
    simp only [vcSkills, List.map_cons, List.filter_cons]
    rw [if_pos (by simpa using hcond)]
    simp only [List.map_cons]
    have iht := ih (fun b hb => hl b (by simp [hb]))
    simp only [vcSkills] at iht
    rw [iht, ha.1]

/-- The integer value of a clamped score. -/
theorem jsClampScore_int_form (n : JNum) (h : n ≠ .nan) :
    ∃ k : ℤ, jsClampScore n = .rat (k : ℚ) ∧ 0 ≤ k ∧ k ≤ 100 := by
  match n with
  | .nan => exact absurd rfl h
  | .inf => exact ⟨100, by decide⟩
  | .ninf => exact ⟨0, by decide⟩
  | .rat q =>
    simp only [jsClampScore, jsRound, jsMinC, jsMaxC]
    by_cases h1 : ((ratRoundHalfUp q : ℤ) : ℚ) ≤ 100
    · rw [if_pos h1]
      by_cases h2 : ((ratRoundHalfUp q : ℤ) : ℚ) ≤ 0
      · rw [if_pos h2]
        exact ⟨0, rfl, by omega, by omega⟩
      · rw [if_neg h2]
        refine ⟨ratRoundHalfUp q, rfl, ?_, ?_⟩
        · push_neg at h2
          exact_mod_cast le_of_lt h2
        · exact_mod_cast h1
    · rw [if_neg h1]
      rw [if_neg (by norm_num)]
      exact ⟨100, rfl, by omega, by omega⟩

theorem jsClampScore_fix_int (k : ℤ) (h0 : 0 ≤ k) (h1 : k ≤ 100) :
    jsClampScore (.rat (k : ℚ)) = .rat (k : ℚ) := by
  have hk100 : ((k : ℚ)) ≤ 100 := by exact_mod_cast h1
  simp only [jsClampScore, jsRound, ratRoundHalfUp_int, jsMinC, jsMaxC]
  rw [if_pos hk100]
  by_cases h2 : (k : ℚ) ≤ 0
  · have hk0 : k = 0 := by
      have h2i : k ≤ 0 := by exact_mod_cast h2
      omega
    subst hk0
    rw [if_pos h2]
    norm_num
  · rw [if_neg h2]

theorem jsClampScore_idem (n : JNum) : jsClampScore (jsClampScore n) = jsClampScore n := by
  by_cases h : n = .nan
  · subst h
    rfl
  · obtain ⟨k, hk, h0, h1⟩ := jsClampScore_int_form n h
    rw [hk, jsClampScore_fix_int k h0 h1]

theorem isIntIn0100_clamp (n : JNum) (h : n ≠ .nan) :
    isIntIn0100 (jsClampScore n) = true := by
  obtain ⟨k, hk, h0, h1⟩ := jsClampScore_int_form n h
  rw [hk]
  unfold isIntIn0100
  rw [Bool.and_eq_true, Bool.and_eq_true]
  refine ⟨⟨decide_eq_true ?_, decide_eq_true ?_⟩, decide_eq_true ?_⟩
  · exact Rat.den_intCast k
  · exact_mod_cast h0
  · exact_mod_cast h1

theorem summary_default_trim : jsTrim ("No summary provided.") = "No summary provided." := by
  decide

theorem summary_default_ne : ("No summary provided." : String) ≠ "" := by decide

theorem vcParsedText_prop (v : JSVal) :
    jsTrim (vcParsedText v) = vcParsedText v ∧ vcParsedText v ≠ "" := by
  match v with
  | .undef => exact ⟨summary_default_trim, summary_default_ne⟩
  | .null => exact ⟨summary_default_trim, summary_default_ne⟩
  | .bool _ => exact ⟨summary_default_trim, summary_default_ne⟩
  | .num _ => exact ⟨summary_default_trim, summary_default_ne⟩
  | .arr _ => exact ⟨summary_default_trim, summary_default_ne⟩
  | .obj _ => exact ⟨summary_default_trim, summary_default_ne⟩
  | .str s =>
    simp only [vcParsedText]
    split
    next hc => exact ⟨jsTrim_idem s, hc.2⟩
    next => exact ⟨summary_default_trim, summary_default_ne⟩

theorem vcParsedText_roundtrip (v : JSVal) :
    vcParsedText (.str (vcParsedText v)) = vcParsedText v := by
  obtain ⟨h1, h2⟩ := vcParsedText_prop v
  show (if vcParsedText v ≠ "" ∧ jsTrim (vcParsedText v) ≠ "" then jsTrim (vcParsedText v)
    else "No summary provided.") = vcParsedText v
  rw [if_pos ⟨h2, by rw [h1]; exact h2⟩]
  exact h1

theorem vcScore_roundtrip (v : JSVal) : vcScore (.num (vcScore v)) = vcScore v := by
  match v with
  | .num n =>
    show jsClampScore (jsClampScore n) = jsClampScore n
    exact jsClampScore_idem n
  | .undef => decide
  | .null => decide
  | .bool _ =>
    show jsClampScore (.rat 0) = .rat 0
    decide
  | .str _ =>
    show jsClampScore (.rat 0) = .rat 0
    decide
  | .arr _ =>
    show jsClampScore (.rat 0) = .rat 0
    decide
  | .obj _ =>
    show jsClampScore (.rat 0) = .rat 0
    decide

/-- C4, amended: re-normalizing a normalized record is the identity on
every field except `experience`, which is reset to 0 because the
normalizer reads the `experienceYears` key and a normalized record only
carries `experience`. The uuid-shaped hypotheses say the two uuid draws of
the first pass really came from `uuidv4()`. -/
theorem c4_renormalize_resets_experience (x : CandidateInput) (u1 u2 v1 v2 : String)
    (hu1 : uuidLike u1 = true) (hu2 : uuidLike u2 = true) :
    validateCandidate (recordToInput (validateCandidate x u1 u2)) v1 v2
      = { validateCandidate x u1 u2 with experience := JNum.rat 0 } := by
  have hu1ne : u1 ≠ "" := by
    unfold uuidLike at hu1
    rw [Bool.and_eq_true] at hu1
    exact of_decide_eq_true hu1.1
  apply CandidateRecord.ext
  · show jsOr (jsOr x.id (.str u1)) (.str v1) = jsOr x.id (.str u1)
    exact jsOr_roundtrip _ _ _ (str_truthy_of_ne u1 hu1ne)
  · show (usableStr (.str ((usableStr x.name).getD ("Unknown")))).getD ("Unknown")
      = (usableStr x.name).getD ("Unknown")
    rw [usableStr_getD_unknown x.name]
    rfl
  · exact vcEmail_roundtrip x u1 u2 v2 hu2
  · exact usableStr_getD_na x.phone
  · exact usableStr_getD_na x.location
  · exact vcScore_roundtrip x.score
  · exact vcParsedText_roundtrip x.parsedText
  · exact vcSkills_roundtrip (vcSkills x.skills) (vcSkills_prop x.skills)
  · show JNum.rat 0 = JNum.rat 0
    rfl
  · exact usableStr_getD_na x.jobTitle
  · exact usableStr_getD_na x.education
  · show vcApproved (.bool (vcApproved x.approved)) = vcApproved x.approved
    rfl
  · show jsOr (jsOr x.resumeUrl (.str ("N/A"))) (.str ("N/A")) = jsOr x.resumeUrl (.str ("N/A"))
    exact jsOr_roundtrip _ _ _ (str_truthy_of_ne _ (by decide))

/-! ## No NaN can come out of JSON.parse

JSON number syntax denotes finite rationals only, so no field of a parsed
object can be the number `NaN`. This is what guarantees the pipeline never
feeds `NaN` into the score normalization. -/

/-- The value is not `NaN`, and when it is an object none of its direct
field values is `NaN` (which is all `getField` can expose). -/
def topNanFree (v : JSVal) : Prop :=
  v ≠ .num .nan ∧ ∀ kvs, v = .obj kvs → ∀ kv ∈ kvs, kv.2 ≠ JSVal.num JNum.nan

theorem topNanFree_undef : topNanFree .undef := ⟨by simp, by intro kvs h; simp at h⟩

theorem topNanFree_null : topNanFree .null := ⟨by simp, by intro kvs h; simp at h⟩

theorem topNanFree_bool (b : Bool) : topNanFree (.bool b) :=
  ⟨by simp, by intro kvs h; simp at h⟩

theorem topNanFree_str (s : String) : topNanFree (.str s) :=
  ⟨by simp, by intro kvs h; simp at h⟩

theorem topNanFree_arr (l : List JSVal) : topNanFree (.arr l) :=
  ⟨by simp, by intro kvs h; simp at h⟩

theorem topNanFree_rat (q : ℚ) : topNanFree (.num (.rat q)) := by
  constructor
  · intro h
    injection h with h2
    cases h2
  · intro kvs h
    simp at h

theorem topNanFree_obj (kvs : List (String × JSVal))
    (h : ∀ kv ∈ kvs, kv.2 ≠ JSVal.num JNum.nan) : topNanFree (.obj kvs) := by
  constructor
  · simp
  · intro kvs' he kv hm
    injection he with he2
    exact h kv (he2 ▸ hm)

theorem parse_nan_free_all (fuel : Nat) :
    (∀ cs v r, parseJVal fuel cs = some (v, r) → topNanFree v) ∧
    (∀ cs first acc v r, parseJArrItems fuel cs first acc = some (v, r) → topNanFree v) ∧
    (∀ cs first acc v r, (∀ kv ∈ acc, kv.2 ≠ JSVal.num JNum.nan) →
      parseJObjItems fuel cs first acc = some (v, r) → topNanFree v) := by
  induction fuel with
  | zero =>
    refine ⟨?_, ?_, ?_⟩
    · intro cs v r hp
      simp [parseJVal] at hp
    · intro cs first acc v r hp
      simp [parseJArrItems] at hp
    · intro cs first acc v r _ hp
      simp [parseJObjItems] at hp
  | succ f ih =>
    obtain ⟨ih1, ih2, ih3⟩ := ih
    refine ⟨?_, ?_, ?_⟩
    · intro cs v r hp
      rw [parseJVal] at hp
      split at hp
      next => exact absurd hp (by simp)
      next _ c t _ =>
        split at hp
        next => exact ih3 _ _ _ _ _ (by simp) hp
        next =>
          split at hp
          next => exact ih2 _ _ _ _ _ hp
          next =>
            split at hp
            next =>
              rw [Option.map_eq_some'] at hp
              obtain ⟨⟨chs, rest⟩, _, hfv⟩ := hp
              injection hfv with h1 h2
              rw [← h1]
              exact topNanFree_str _
            next =>
              split at hp
              next =>
                injection hp with hp2
                injection hp2 with h1 h2
                rw [← h1]
                exact topNanFree_bool _
              next =>
                split at hp
                next =>
                  injection hp with hp2
                  injection hp2 with h1 h2
                  rw [← h1]
                  exact topNanFree_bool _
                next =>
                  split at hp
                  next =>
                    injection hp with hp2
                    injection hp2 with h1 h2
                    rw [← h1]
                    exact topNanFree_null
                  next =>
                    rw [Option.map_eq_some'] at hp
                    obtain ⟨⟨q, rest⟩, _, hfv⟩ := hp
                    injection hfv with h1 h2
                    rw [← h1]
                    exact topNanFree_rat q
    · intro cs first acc v r hp
      rw [parseJArrItems] at hp
      split at hp
      · exact absurd hp (by simp)
      · split at hp
        · split at hp
          · injection hp with hp2
            injection hp2 with h1 h2
            rw [← h1]
            exact topNanFree_arr _
          · exact absurd hp (by simp)
        · split at hp
          · exact absurd hp (by simp)
          · split at hp
            · exact ih2 _ _ _ _ _ hp
            · injection hp with hp2
              injection hp2 with h1 h2
              rw [← h1]
              exact topNanFree_arr _
            · exact absurd hp (by simp)
    · intro cs first acc v r hacc hp
      rw [parseJObjItems] at hp
      split at hp
      · exact absurd hp (by simp)
      · split at hp
        · split at hp
          · injection hp with hp2
            injection hp2 with h1 h2
            rw [← h1]
            refine topNanFree_obj _ ?_
            intro kv hm
            exact hacc kv (by simpa using hm)
          · exact absurd hp (by simp)
        · split at hp
          · split at hp
            · exact absurd hp (by simp)
            · split at hp
              · split at hp
                · exact absurd hp (by simp)
                · rename_i w rest2 hpv
                  have hw : w ≠ JSVal.num JNum.nan := (ih1 _ w rest2 hpv).1
                  split at hp
                  · refine ih3 _ _ _ v r ?_ hp
                    intro kv hm
                    rcases List.mem_cons.mp hm with h1 | h2
                    · rw [h1]
                      exact hw
                    · exact hacc kv h2
                  · split at hp
                    · injection hp with hp2
                      injection hp2 with h1 h2
                      rw [← h1]
                      refine topNanFree_obj _ ?_
                      intro kv hm
                      rw [List.mem_reverse] at hm
                      rcases List.mem_cons.mp hm with h1 | h2
                      · rw [h1]
                        exact hw
                      · exact hacc kv h2
                    · exact absurd hp (by simp)
                  · exact absurd hp (by simp)
              · exact absurd hp (by simp)
          · exact absurd hp (by simp)

/-- Reading any field of a `jsonParse` result never yields the number
`NaN`. -/
theorem jsonParse_getField_ne_nan (s : String) (v : JSVal) (h : jsonParse s = some v)
    (k : String) : v.getField k ≠ JSVal.num JNum.nan := by
  unfold jsonParse at h
  split at h
  · rename_i w rest hp
    split at h
    · injection h with h2
      subst h2
      have htop := (parse_nan_free_all _).1 _ _ _ hp
      match w with
      | .undef => simp [JSVal.getField]
      | .null => simp [JSVal.getField]
      | .bool _ => simp [JSVal.getField]
      | .num n => simp [JSVal.getField]
      | .str _ => simp [JSVal.getField]
      | .arr _ => simp [JSVal.getField]
      | .obj kvs =>
        simp only [JSVal.getField]
        rcases hfind : kvs.reverse.find? (fun kv => kv.1 = k) with _ | kv
        · rw [hfind]
          simp
        · rw [hfind]
          have hmem : kv ∈ kvs := by
            rw [← List.mem_reverse]
            exact List.mem_of_find?_eq_some hfind
          exact htop.2 kvs rfl kv hmem
    · exact absurd h (by simp)
  · exact absurd h (by simp)

/-! ## The score invariant through the pipeline -/

theorem vcScore_ok (v : JSVal) (h : v ≠ .num .nan) : isIntIn0100 (vcScore v) = true := by
  match v with
  | .num n =>
    show isIntIn0100 (jsClampScore n) = true
    exact isIntIn0100_clamp n (fun he => h (by rw [he]))
  | .undef => decide
  | .null => decide
  | .bool _ =>
    show isIntIn0100 (.rat 0) = true
    decide
  | .str _ =>
    show isIntIn0100 (.rat 0) = true
    decide
  | .arr _ =>
    show isIntIn0100 (.rat 0) = true
    decide
  | .obj _ =>
    show isIntIn0100 (.rat 0) = true
    decide

theorem validate_score_ok (x : CandidateInput) (u1 u2 : String) (h : x.score ≠ .num .nan) :
    isIntIn0100 (validateCandidate x u1 u2).score = true :=
  vcScore_ok x.score h

theorem jsOr_ne_nan (a b : JSVal) (ha : a ≠ .num .nan) (hb : b ≠ .num .nan) :
    jsOr a b ≠ .num .nan := by
  unfold jsOr
  split
  · exact ha
  · exact hb

theorem rat_zero_ne_nan : JSVal.num (JNum.rat 0) ≠ JSVal.num JNum.nan := by
  intro h
  injection h with h2
  cases h2

/-- Every payload `parseWithGemini` can return carries a score that is not
the number `NaN` (the failure payloads carry the number 0; the success
payload carries a field of a `JSON.parse` result or the number 0). -/
theorem parseWithGemini_score_ne_nan (apiKeyPresent : Bool) (text jd rs : String)
    (outcome : EvalOutcome) (u : String) (payload : CandidateInput)
    (h : parseWithGemini apiKeyPresent text jd rs outcome u = .ok payload) :
    payload.score ≠ JSVal.num JNum.nan := by
  unfold parseWithGemini at h
  split at h
  · injection h with h2
    rw [← h2]
    exact rat_zero_ne_nan
  · match outcome with
    | .throwErr m => exact absurd h (by simp)
    | .malformedResult =>
      injection h with h2
      rw [← h2]
      exact rat_zero_ne_nan
    | .raw raw =>
      simp only at h
      split at h
      · injection h with h2
        rw [← h2]
        exact rat_zero_ne_nan
      · split at h
        · injection h with h2
          rw [← h2]
          exact rat_zero_ne_nan
        · rename_i parsed hparse
          injection h with h2
          rw [← h2]
          exact jsOr_ne_nan _ _ (jsonParse_getField_ne_nan _ _ hparse _) rat_zero_ne_nan

/-- Every record the per-file loop pushes has an integral score in
[0, 100]. -/
theorem processOneFile_score_ok (k : Bool) (jd rs : String) (file : MFile) (env : ItemEnv)
    (r : CandidateRecord) (h : (processOneFile k jd rs file env).record = some r) :
    isIntIn0100 r.score = true := by
  unfold processOneFile at h
  split at h
  · exact absurd h (by simp)
  · split at h
    · injection h with h2
      rw [← h2]
      exact validate_score_ok _ _ _ rat_zero_ne_nan
    · split at h
      · injection h with h2
        rw [← h2]
        exact validate_score_ok _ _ _ rat_zero_ne_nan
      · split at h
        · injection h with h2
          rw [← h2]
          exact validate_score_ok _ _ _ rat_zero_ne_nan
        · rename_i payload hpg
          have hsc := parseWithGemini_score_ne_nan _ _ _ _ _ _ _ hpg
          unfold processUploadStage at h
          split at h
          · injection h with h2
            rw [← h2]
            exact validate_score_ok _ _ _ hsc
          · split at h
            · injection h with h2
              rw [← h2]
              show isIntIn0100 (validateCandidate _ env.vc1 env.vc2).score = true
              exact validate_score_ok _ _ _ hsc
            · injection h with h2
              rw [← h2]
              show isIntIn0100 (validateCandidate _ env.vc1 env.vc2).score = true
              exact validate_score_ok _ _ _ hsc

/-! ## Batching: processInBatches refines the chunk decomposition -/

theorem specChunks_nil (bs : Nat) : specChunks bs ([] : List α) = [] := by
  simp [specChunks]

theorem specChunks_cons (bs : Nat) (x : α) (xs : List α) :
    specChunks (bs + 1) (x :: xs)
      = (x :: xs).take (bs + 1) :: specChunks (bs + 1) ((x :: xs).drop (bs + 1)) := by
  rw [specChunks]

theorem processInBatches_nil (bs : Nat) (f : List α → List β) :
    processInBatches bs f ([] : List α) = ([], 0) := by
  simp [processInBatches]

theorem processInBatches_cons (bs : Nat) (f : List α → List β) (x : α) (xs : List α) :
    processInBatches (bs + 1) f (x :: xs)
      = (f ((x :: xs).take (bs + 1)) ++ (processInBatches (bs + 1) f ((x :: xs).drop (bs + 1))).1,
        (if ((x :: xs).drop (bs + 1)).isEmpty then 0 else 1)
          + (processInBatches (bs + 1) f ((x :: xs).drop (bs + 1))).2) := by
  rw [processInBatches]

theorem specChunks_length_pos (bs : Nat) (x : α) (xs : List α) :
    1 ≤ (specChunks (bs + 1) (x :: xs)).length := by
  rw [specChunks_cons]
  simp

theorem specChunks_flatten (bs : Nat) (items : List α) :
    (specChunks (bs + 1) items).flatten = items := by
  generalize hn : items.length = n
  induction n using Nat.strong_induction_on generalizing items with
  | _ n ih =>
    match items with
    | [] => simp [specChunks]
    | x :: xs =>
      rw [specChunks_cons, List.flatten_cons]
      rw [ih ((x :: xs).drop (bs + 1)).length
        (by rw [← hn]; simp only [List.length_drop, List.length_cons]; omega) _ rfl]
      exact List.take_append_drop (bs + 1) (x :: xs)

/-- The refinement of `processInBatches` by the chunk decomposition: the
results are the in-order concatenation of the per-batch results, and the
number of cooldown waits is one less than the number of batches. -/
theorem processInBatches_eq (bs : Nat) (f : List α → List β) (items : List α) :
    processInBatches (bs + 1) f items
      = (((specChunks (bs + 1) items).map f).flatten,
        (specChunks (bs + 1) items).length - 1) := by
  generalize hn : items.length = n
  induction n using Nat.strong_induction_on generalizing items with
  | _ n ih =>
    match items with
    | [] => simp [specChunks, processInBatches]
    | x :: xs =>
      rw [processInBatches_cons, specChunks_cons]
      rw [ih ((x :: xs).drop (bs + 1)).length
        (by rw [← hn]; simp only [List.length_drop, List.length_cons]; omega) _ rfl]
      rw [List.map_cons, List.flatten_cons]
      refine Prod.ext rfl ?_
      show (if ((x :: xs).drop (bs + 1)).isEmpty then 0 else 1)
          + ((specChunks (bs + 1) ((x :: xs).drop (bs + 1))).length - 1)
        = (specChunks (bs + 1) ((x :: xs).drop (bs + 1))).length + 1 - 1
      cases hrest : (x :: xs).drop (bs + 1) with
      | nil => simp [specChunks_nil]
      | cons y ys =>
        have hpos := specChunks_length_pos bs y ys
        simp only [List.isEmpty_cons, Bool.false_eq_true, if_false]
        omega

theorem length_filterMap_of_isSome (g : α → Option β) (l : List α)
    (h : ∀ x ∈ l, (g x).isSome = true) : (l.filterMap g).length = l.length := by
  induction l with
  | nil => rfl
  | cons a t ih =>
    have ha := h a (by simp)
    rcases hg : g a with _ | b
    · rw [hg] at ha
      simp at ha
    · rw [List.filterMap_cons, hg]
      simp only [List.length_cons]
      rw [ih (fun x hx => h x (by simp [hx]))]

theorem mem_processInBatches (bs : Nat) (f : List α → List β) (items : List α) (y : β)
    (h : y ∈ (processInBatches (bs + 1) f items).1) :
    ∃ b, b ∈ specChunks (bs + 1) items ∧ y ∈ f b := by
  rw [processInBatches_eq] at h
  simp only [List.mem_flatten, List.mem_map] at h
  obtain ⟨l, ⟨b, hb, rfl⟩, hy⟩ := h
  exact ⟨b, hb, hy⟩

theorem mem_of_mem_specChunks (bs : Nat) (items : List α) (b : List α)
    (hb : b ∈ specChunks (bs + 1) items) (x : α) (hx : x ∈ b) : x ∈ items := by
  rw [← specChunks_flatten bs items]
  exact List.mem_flatten.mpr ⟨b, hb, hx⟩

theorem processInBatches_length (bs : Nat) (f : List α → List β) (items : List α)
    (hf : ∀ b ∈ specChunks (bs + 1) items, (f b).length = b.length) :
    (processInBatches (bs + 1) f items).1.length = items.length := by
  rw [processInBatches_eq]
  show (((specChunks (bs + 1) items).map f).flatten).length = items.length
  rw [List.length_flatten]
  have hmaps : ((specChunks (bs + 1) items).map f).map List.length
      = (specChunks (bs + 1) items).map List.length := by
    rw [List.map_map]
    exact List.map_congr_left (fun b hb => hf b hb)
  rw [hmaps, ← List.length_flatten, specChunks_flatten]

/-! ## The sort: permutation, descending order, stability -/

/-- The record carries a finite (non-NaN, non-infinite) score. Every
record the pipeline produces satisfies this (its scores are integers in
[0, 100]). -/
def recRat (r : CandidateRecord) : Prop := ∃ q, r.score = JNum.rat q

theorem recRat_of_isIntIn0100 (r : CandidateRecord) (h : isIntIn0100 r.score = true) :
    recRat r := by
  unfold isIntIn0100 at h
  match hs : r.score with
  | .nan => rw [hs] at h; simp at h
  | .inf => rw [hs] at h; simp at h
  | .ninf => rw [hs] at h; simp at h
  | .rat q => exact ⟨q, hs⟩

theorem sortLe_rats (a b : CandidateRecord) (qa qb : ℚ) (ha : a.score = JNum.rat qa)
    (hb : b.score = JNum.rat qb) : sortLe a b = decide (qb - qa ≤ 0) := by
  unfold sortLe
  rw [ha, hb]
  rfl

theorem sortLe_total (a b : CandidateRecord) (ha : recRat a) (hb : recRat b) :
    sortLe a b = true ∨ sortLe b a = true := by
  obtain ⟨qa, hqa⟩ := ha
  obtain ⟨qb, hqb⟩ := hb
  rw [sortLe_rats a b qa qb hqa hqb, sortLe_rats b a qb qa hqb hqa]
  rcases le_total qa qb with h | h
  · right
    exact decide_eq_true (by linarith)
  · left
    exact decide_eq_true (by linarith)

theorem sortLe_trans (a b c : CandidateRecord) (ha : recRat a) (hb : recRat b) (hc : recRat c)
    (h1 : sortLe a b = true) (h2 : sortLe b c = true) : sortLe a c = true := by
  obtain ⟨qa, hqa⟩ := ha
  obtain ⟨qb, hqb⟩ := hb
  obtain ⟨qc, hqc⟩ := hc
  rw [sortLe_rats a b qa qb hqa hqb] at h1
  rw [sortLe_rats b c qb qc hqb hqc] at h2
  rw [sortLe_rats a c qa qc hqa hqc]
  have g1 := of_decide_eq_true h1
  have g2 := of_decide_eq_true h2
  exact decide_eq_true (by linarith)

theorem sortLe_false_lt (x y : CandidateRecord) (hx : recRat x) (hy : recRat y)
    (h : sortLe x y = false) :
    ∃ qx qy, x.score = JNum.rat qx ∧ y.score = JNum.rat qy ∧ qx < qy := by
  obtain ⟨qx, hqx⟩ := hx
  obtain ⟨qy, hqy⟩ := hy
  rw [sortLe_rats x y qx qy hqx hqy] at h
  refine ⟨qx, qy, hqx, hqy, ?_⟩
  have := of_decide_eq_false h
  linarith [not_le.mp this]

theorem sortInsert_perm (x : CandidateRecord) (l : List CandidateRecord) :
    (sortInsert x l).Perm (x :: l) := by
  induction l with
  | nil => exact List.Perm.refl _
  | cons y ys ih =>
    unfold sortInsert
    split
    · exact List.Perm.refl _
    · exact (ih.cons y).trans (List.Perm.swap x y ys)

theorem jsSortCandidates_perm (l : List CandidateRecord) : (jsSortCandidates l).Perm l := by
  induction l with
  | nil => exact List.Perm.refl _
  | cons x xs ih =>
    unfold jsSortCandidates
    exact (sortInsert_perm x (jsSortCandidates xs)).trans (ih.cons x)

theorem sortInsert_pairwise (x : CandidateRecord) (l : List CandidateRecord)
    (hx : recRat x) (hl : ∀ r ∈ l, recRat r)
    (h : l.Pairwise (fun a b => sortLe a b = true)) :
    (sortInsert x l).Pairwise (fun a b => sortLe a b = true) := by
  induction l with
  | nil => simp [sortInsert]
  | cons y ys ih =>
    unfold sortInsert
    split
    next hxy =>
      refine List.Pairwise.cons ?_ h
      intro z hz
      rcases List.mem_cons.mp hz with rfl | hzys
      · exact hxy
      · have hyz := (List.pairwise_cons.mp h).1 z hzys
        exact sortLe_trans x y z hx (hl y (by simp)) (hl z (by simp [hzys])) hxy hyz
    next hxy =>
      have hyx : sortLe y x = true := by
        rcases sortLe_total x y hx (hl y (by simp)) with h1 | h2
        · exact absurd h1 hxy
        · exact h2
      obtain ⟨hhead, htail⟩ := List.pairwise_cons.mp h
      refine List.Pairwise.cons ?_ (ih (fun r hr => hl r (by simp [hr])) htail)
      intro z hz
      rcases List.mem_cons.mp ((sortInsert_perm x ys).mem_iff.mp hz) with rfl | hzys
      · exact hyx
      · exact hhead z hzys

theorem jsSortCandidates_pairwise (l : List CandidateRecord) (hl : ∀ r ∈ l, recRat r) :
    (jsSortCandidates l).Pairwise (fun a b => sortLe a b = true) := by
  induction l with
  | nil => simp [jsSortCandidates]
  | cons x xs ih =>
    unfold jsSortCandidates
    have hxs : ∀ r ∈ jsSortCandidates xs, recRat r := by
      intro r hr
      exact hl r (by simp [(jsSortCandidates_perm xs).mem_iff.mp hr])
    exact sortInsert_pairwise x (jsSortCandidates xs) (hl x (by simp)) hxs
      (ih (fun r hr => hl r (by simp [hr])))

theorem sortInsert_filter (s : JNum) (x : CandidateRecord) (l : List CandidateRecord)
    (hx : recRat x) (hl : ∀ r ∈ l, recRat r) :
    (sortInsert x l).filter (fun r => decide (r.score = s))
      = (if x.score = s then [x] else [])
        ++ l.filter (fun r => decide (r.score = s)) := by
  induction l with
  | nil =>
    by_cases hp : x.score = s
    · simp [sortInsert, List.filter, hp]
    · simp [sortInsert, List.filter, hp]
  | cons y ys ih =>
    unfold sortInsert
    split
    next hxy =>
      by_cases hp : x.score = s
      · simp [List.filter_cons, hp]
      · simp [List.filter_cons, hp]
    next hxy =>
      have hih := ih (fun r hr => hl r (by simp [hr]))
      obtain ⟨qx, qy, hqx, hqy, hlt⟩ :=
        sortLe_false_lt x y hx (hl y (by simp)) (by simpa using hxy)
      by_cases hpx : x.score = s
      · have hpy : ¬ (y.score = s) := by
          intro hys
          rw [hqy] at hys
          rw [hqx] at hpx
          rw [← hys] at hpx
          injection hpx with h2
          exact absurd h2 (by intro h3; rw [h3] at hlt; exact lt_irrefl _ hlt)
        simp [List.filter_cons, hih, hpx, hpy]
      · by_cases hpy : y.score = s
        · simp [List.filter_cons, hih, hpx, hpy]
        · simp [List.filter_cons, hih, hpx, hpy]

theorem jsSortCandidates_filter (s : JNum) (l : List CandidateRecord)
    (hl : ∀ r ∈ l, recRat r) :
    (jsSortCandidates l).filter (fun r => decide (r.score = s))
      = l.filter (fun r => decide (r.score = s)) := by
  induction l with
  | nil => rfl
  | cons x xs ih =>
    unfold jsSortCandidates
    have hxs : ∀ r ∈ jsSortCandidates xs, recRat r := by
      intro r hr
      exact hl r (by simp [(jsSortCandidates_perm xs).mem_iff.mp hr])
    rw [sortInsert_filter s x (jsSortCandidates xs) (hl x (by simp)) hxs,
      ih (fun r hr => hl r (by simp [hr])), List.filter_cons]
    by_cases hp : x.score = s
    · rw [if_pos hp, if_pos (by simpa using hp)]
      rfl
    · rw [if_neg hp, if_neg (by simpa using hp)]
      rfl

/-! ## Record production and run-level characterizations -/

theorem processUploadStage_record_isSome (env : ItemEnv) (file : MFile) (cand : CandidateRecord) :
    (processUploadStage env file cand).record.isSome = true := by
  unfold processUploadStage
  split
  · rfl
  · split
    · rfl
    · rfl

theorem processOneFile_record_isSome (k : Bool) (jd rs : String) (file : MFile) (env : ItemEnv)
    (hp : file.path ≠ "") (ho : file.originalname ≠ "") :
    (processOneFile k jd rs file env).record.isSome = true := by
  unfold processOneFile
  rw [if_neg (by rintro (h | h) <;> [exact hp h; exact ho h])]
  split
  · rfl
  · split
    · rfl
    · split
      · rfl
      · exact processUploadStage_record_isSome env file _

theorem processOneFile_record_none (k : Bool) (jd rs : String) (file : MFile) (env : ItemEnv)
    (h : file.path = "" ∨ file.originalname = "") :
    (processOneFile k jd rs file env).record = none := by
  unfold processOneFile
  rw [if_pos h]

theorem processResumeFiles_configError (cfg : Config) (items : List (MFile × ItemEnv))
    (jd rs : String) (hok : cfg.ok = false) :
    (processResumeFiles cfg items jd rs).candidates = items.map (configErrorCandidate cfg) := by
  unfold processResumeFiles
  rw [if_pos (by simp [hok])]

theorem processResumeFiles_empty (cfg : Config) (items : List (MFile × ItemEnv))
    (jd rs : String) (hok : cfg.ok = true) (hlen : items.length = 0) :
    (processResumeFiles cfg items jd rs).candidates = [] := by
  unfold processResumeFiles
  rw [if_neg (by simp [hok]), if_pos hlen]

theorem processResumeFiles_noPdf (cfg : Config) (items : List (MFile × ItemEnv))
    (jd rs : String) (hok : cfg.ok = true) (hlen : items.length ≠ 0)
    (hpdf : (items.filter (fun fe => fe.1.mimetype = "application/pdf")).length = 0) :
    (processResumeFiles cfg items jd rs).candidates = [] := by
  unfold processResumeFiles
  rw [if_neg (by simp [hok]), if_neg hlen]
  show (if (items.filter (fun (fe : MFile × ItemEnv) => fe.1.mimetype = "application/pdf")).length = 0
    then _ else _ : RunResult).candidates = ([] : List CandidateRecord)
  rw [if_pos hpdf]

theorem processResumeFiles_main (cfg : Config) (items : List (MFile × ItemEnv))
    (jd rs : String) (hok : cfg.ok = true) (hlen : items.length ≠ 0)
    (hpdf : (items.filter (fun fe => fe.1.mimetype = "application/pdf")).length ≠ 0) :
    (processResumeFiles cfg items jd rs).candidates
      = jsSortCandidates (processInBatches 5
          (fun batch => batch.filterMap
            (fun fe => (processOneFile cfg.apiKeyPresent jd rs fe.1 fe.2).record))
          (items.filter (fun fe => fe.1.mimetype = "application/pdf"))).1 := by
  unfold processResumeFiles
  rw [if_neg (by simp [hok]), if_neg hlen]
  show (if (items.filter (fun (fe : MFile × ItemEnv) => fe.1.mimetype = "application/pdf")).length = 0
    then _ else _ : RunResult).candidates = _
  rw [if_neg hpdf]

theorem configErrorCandidate_score_ok (cfg : Config) (fe : MFile × ItemEnv) :
    isIntIn0100 (configErrorCandidate cfg fe).score = true := by
  unfold configErrorCandidate
  exact validate_score_ok _ _ _ rat_zero_ne_nan

theorem run_candidates_score_ok (cfg : Config) (items : List (MFile × ItemEnv))
    (jd rs : String) :
    ∀ r ∈ (processResumeFiles cfg items jd rs).candidates, isIntIn0100 r.score = true := by
  intro r hr
  by_cases hok : cfg.ok = true
  · by_cases hlen : items.length = 0
    · rw [processResumeFiles_empty cfg items jd rs hok hlen] at hr
      simp at hr
    · by_cases hpdf : (items.filter (fun fe => fe.1.mimetype = "application/pdf")).length = 0
      · rw [processResumeFiles_noPdf cfg items jd rs hok hlen hpdf] at hr
        simp at hr
      · rw [processResumeFiles_main cfg items jd rs hok hlen hpdf] at hr
        have hr2 := (jsSortCandidates_perm _).mem_iff.mp hr
        obtain ⟨b, hb, hyb⟩ := mem_processInBatches 4 _ _ r hr2
        rw [List.mem_filterMap] at hyb
        obtain ⟨fe, hfe, hrec⟩ := hyb
        exact processOneFile_score_ok _ _ _ _ _ _ hrec
  · rw [processResumeFiles_configError cfg items jd rs (by simpa using hok)] at hr
    obtain ⟨fe, hfe, rfl⟩ := List.mem_map.mp hr
    exact configErrorCandidate_score_ok cfg fe

/-! ## Further email and sort helpers -/

theorem vcEmail_trim_fix (x : CandidateInput) (u2 : String) (hu2 : uuidLike u2 = true) :
    jsTrim (vcEmail x u2) = vcEmail x u2 := by
  unfold vcEmail
  split
  next hkept =>
    obtain ⟨s, _, _, hshape⟩ := vcEmailInput_shape x hkept.1
    rw [hshape, jsTrim_jsLower, jsTrim_idem]
  next =>
    unfold vcFallbackEmail
    cases usableStr x.name with
    | some t =>
      exact jsTrim_of_no_ws _ (append_no_ws _ _ (lower_no_ws _ (stripWs_no_ws t)) gmail_no_ws)
    | none =>
      refine jsTrim_of_no_ws _ (append_no_ws _ _ (append_no_ws _ _ ?_ ?_) gmail_no_ws)
      · decide
      · exact uuidLike_no_ws u2 hu2

theorem vcEmail_lower_fix (x : CandidateInput) (u2 : String) (hu2 : uuidLike u2 = true) :
    jsLower (vcEmail x u2) = vcEmail x u2 := by
  have h := lower_trim_fix_of_vcEmail x u2 hu2
  rw [vcEmail_trim_fix x u2 hu2] at h
  exact h

theorem configErrorCandidate_score (cfg : Config) (fe : MFile × ItemEnv) :
    (configErrorCandidate cfg fe).score = JNum.rat 0 := rfl

theorem pairwise_of_all_sortLe (l : List CandidateRecord)
    (h : ∀ a ∈ l, ∀ b ∈ l, sortLe a b = true) :
    l.Pairwise (fun a b => sortLe a b = true) := by
  induction l with
  | nil => exact List.Pairwise.nil
  | cons x xs ih =>
    refine List.Pairwise.cons ?_ (ih (fun a ha b hb => h a (by simp [ha]) b (by simp [hb])))
    intro b hb
    exact h x (by simp) b (by simp [hb])

theorem run_candidates_recRat (cfg : Config) (items : List (MFile × ItemEnv))
    (jd rs : String) :
    ∀ r ∈ (processResumeFiles cfg items jd rs).candidates, recRat r :=
  fun r hr => recRat_of_isIntIn0100 r (run_candidates_score_ok cfg items jd rs r hr)

theorem run_candidates_pairwise (cfg : Config) (items : List (MFile × ItemEnv))
    (jd rs : String) :
    ((processResumeFiles cfg items jd rs).candidates).Pairwise
      (fun a b => sortLe a b = true) := by
  by_cases hok : cfg.ok = true
  · by_cases hlen : items.length = 0
    · rw [processResumeFiles_empty cfg items jd rs hok hlen]
      exact List.Pairwise.nil
    · by_cases hpdf : (items.filter (fun fe => fe.1.mimetype = "application/pdf")).length = 0
      · rw [processResumeFiles_noPdf cfg items jd rs hok hlen hpdf]
        exact List.Pairwise.nil
      · rw [processResumeFiles_main cfg items jd rs hok hlen hpdf]
        apply jsSortCandidates_pairwise
        intro r hr
        obtain ⟨b, hb, hyb⟩ := mem_processInBatches 4 _ _ r hr
        rw [List.mem_filterMap] at hyb
        obtain ⟨fe, hfe, hrec⟩ := hyb
        exact recRat_of_isIntIn0100 r (processOneFile_score_ok _ _ _ _ _ _ hrec)
  · rw [processResumeFiles_configError cfg items jd rs (by simpa using hok)]
    apply pairwise_of_all_sortLe
    intro a ha b hb
    obtain ⟨fa, _, rfl⟩ := List.mem_map.mp ha
    obtain ⟨fb, _, rfl⟩ := List.mem_map.mp hb
    rw [sortLe_rats _ _ 0 0 (configErrorCandidate_score cfg fa) (configErrorCandidate_score cfg fb)]
    norm_num

/-! ## Concrete inputs used by the claim witnesses -/

def c7recA : CandidateRecord :=
  ⟨JSVal.str ("id-a"), "A", "a@x.com", "N/A", "N/A", JNum.rat 50, "summary a", [],
    JNum.rat 0, "N/A", "N/A", false, JSVal.str ("N/A")⟩

def c7recB : CandidateRecord :=
  ⟨JSVal.str ("id-b"), "B", "b@x.com", "N/A", "N/A", JNum.rat 90, "summary b", [],
    JNum.rat 0, "N/A", "N/A", false, JSVal.str ("N/A")⟩

def c9text : String := ⟨List.replicate 60 'a'⟩

def c9file : MFile := ⟨"/tmp/r.pdf", "r.pdf", "application/pdf"⟩

def c9raw : String := "\x7b\"name\":\"Bob\",\"score\":90\x7d"

def c9env : ItemEnv :=
  ⟨Except.ok c9text, EvalOutcome.raw c9raw, Except.error ("disk full"), false,
    "ab-1", "cd-2", "ef-3", "fa-4"⟩

def c9payload : CandidateInput :=
  successPayload none (JSVal.obj [("name", JSVal.str ("Bob")), ("score", JSVal.num (JNum.rat 90))])

def c10text : String := ⟨List.replicate 55 'b'⟩

def c10file : MFile := ⟨"/tmp/s.pdf", "s.pdf", "application/pdf"⟩

def c10raw : String := "\x7b\"name\":\"Content Blocked\",\"score\":0\x7d"

def c10env : ItemEnv :=
  ⟨Except.ok c10text, EvalOutcome.raw c10raw, Except.ok ("https://bucket/s.pdf"), false,
    "ab-5", "cd-6", "ef-7", "fa-8"⟩

def c10payload : CandidateInput :=
  successPayload none
    (JSVal.obj [("name", JSVal.str ("Content Blocked")), ("score", JSVal.num (JNum.rat 0))])

/-! ## The claims -/

/-- C1: every normalizer output carries all thirteen fields of the §3 data
model (the `CandidateRecord` type is fully populated by construction), and
the score constraint holds in this amended form: the normalized score is
an integer in [0, 100] for every input whose score is not the JS number
`NaN`; it is exactly 0 when the input score is not a number at all (absent
included); and every record in a pipeline run result satisfies the
[0, 100] integer constraint unconditionally. The original wording fails on
a `NaN` input score, which JS types as a number and which the clamp
propagates into the record. -/
theorem c1_score_invariant :
    (∀ (x : CandidateInput) (u1 u2 : String), x.score ≠ JSVal.num JNum.nan →
      isIntIn0100 (validateCandidate x u1 u2).score = true)
    ∧ (∀ (x : CandidateInput) (u1 u2 : String), (∀ n : JNum, x.score ≠ JSVal.num n) →
      (validateCandidate x u1 u2).score = JNum.rat 0)
    ∧ (∀ (cfg : Config) (items : List (MFile × ItemEnv)) (jd rs : String),
      ∀ r ∈ (processResumeFiles cfg items jd rs).candidates, isIntIn0100 r.score = true) := by
  refine ⟨?_, ?_, ?_⟩
  · intro x u1 u2 h
    exact validate_score_ok x u1 u2 h
  · intro x u1 u2 h
    show vcScore x.score = JNum.rat 0
    match hx : x.score with
    | .num n => exact absurd hx (h n)
    | .undef => rfl
    | .null => rfl
    | .bool _ => rfl
    | .str _ => rfl
    | .arr _ => rfl
    | .obj _ => rfl
  · exact run_candidates_score_ok

/-- C1 witness: an in-range numeric score is kept as an integer in
[0, 100], and a junk string score normalizes to 0. -/
theorem c1_score_invariant_witness :
    isIntIn0100 (validateCandidate { score := JSVal.num (JNum.rat 87) } "u" "v").score = true
    ∧ (validateCandidate { score := JSVal.str ("high") } "u" "v").score = JNum.rat 0 :=
  ⟨c1_score_invariant.1 { score := JSVal.num (JNum.rat 87) } "u" "v"
     (fun h => JNum.noConfusion (JSVal.num.inj h)),
   c1_score_invariant.2.1 { score := JSVal.str ("high") } "u" "v" (fun n h => by cases h)⟩

/-- C1 counterexample: a `NaN` input score passes the
`typeof === "number"` test, `Math.round`, `Math.min` and `Math.max` all
propagate it, so the produced record's score is `NaN` — not an integer in
[0, 100]. -/
theorem c1_counterexample :
    (validateCandidate { score := JSVal.num JNum.nan } "u" "v").score = JNum.nan
    ∧ isIntIn0100 (validateCandidate { score := JSVal.num JNum.nan } "u" "v").score = false :=
  ⟨by decide, by decide⟩

/-- C2: amended per-item isolation: in a run with a working configuration
and at least one PDF-type item, provided every PDF-type entry passes the
line-765 guard (nonempty `path` and nonempty `originalname`), a failure at
any per-item stage (extraction, evaluation, upload, persistence) still
yields a record for that item, so the returned candidates list has exactly
one record per PDF-type item. The guard proviso is needed: an entry with
an empty `path` is skipped by `continue` with no record (see the
counterexample). -/
theorem c2_per_item_isolation (cfg : Config) (items : List (MFile × ItemEnv)) (jd rs : String)
    (hok : cfg.ok = true)
    (hpdf : (items.filter (fun fe => fe.1.mimetype = "application/pdf")).length ≠ 0)
    (hguard : ∀ fe ∈ items, fe.1.mimetype = "application/pdf" →
      fe.1.path ≠ "" ∧ fe.1.originalname ≠ "") :
    (processResumeFiles cfg items jd rs).candidates.length
      = (items.filter (fun fe => fe.1.mimetype = "application/pdf")).length := by
  have hlen : items.length ≠ 0 := by
    intro h0
    rw [List.length_eq_zero] at h0
    subst h0
    simp at hpdf
  rw [processResumeFiles_main cfg items jd rs hok hlen hpdf]
  rw [(jsSortCandidates_perm _).length_eq]
  rw [show (5 : Nat) = 4 + 1 from rfl]
  apply processInBatches_length
  intro b hb
  apply length_filterMap_of_isSome
  intro fe hfe
  have hmem := mem_of_mem_specChunks 4 _ b hb fe hfe
  have hf := List.mem_filter.mp hmem
  obtain ⟨h1, h2⟩ := hguard fe hf.1 (of_decide_eq_true hf.2)
  exact processOneFile_record_isSome cfg.apiKeyPresent jd rs fe.1 fe.2 h1 h2

/-- C2 witness: one well-formed PDF entry whose extraction throws still
yields exactly one record. -/
theorem c2_per_item_isolation_witness :
    (processResumeFiles ⟨true, true, true, true⟩
        [(⟨"/tmp/a", "a.pdf", "application/pdf"⟩,
          ⟨Except.error ("boom"), EvalOutcome.raw "", Except.ok "", false, "u", "x", "v", "w"⟩)]
        "jd" "rs").candidates.length
      = ([((⟨"/tmp/a", "a.pdf", "application/pdf"⟩ : MFile),
          (⟨Except.error ("boom"), EvalOutcome.raw "", Except.ok "", false, "u", "x", "v", "w"⟩
            : ItemEnv))].filter
          (fun fe => fe.1.mimetype = "application/pdf")).length :=
  c2_per_item_isolation ⟨true, true, true, true⟩ _ "jd" "rs" rfl (by decide) (by decide)

/-- C2 counterexample: a PDF-type entry with an empty `path` hits the
line-765 `continue` and contributes no record: one PDF-type item received,
zero candidates returned. -/
theorem c2_counterexample :
    (processResumeFiles ⟨true, true, true, true⟩
        [(⟨"", "a.pdf", "application/pdf"⟩,
          ⟨Except.ok "", EvalOutcome.raw "", Except.ok "", false, "u", "x", "v", "w"⟩)]
        "jd" "rs").candidates.length = 0
    ∧ ([((⟨"", "a.pdf", "application/pdf"⟩ : MFile),
        (⟨Except.ok "", EvalOutcome.raw "", Except.ok "", false, "u", "x", "v", "w"⟩
          : ItemEnv))].filter
        (fun fe => fe.1.mimetype = "application/pdf")).length = 1 := by
  constructor
  · rw [processResumeFiles_main ⟨true, true, true, true⟩
      [(⟨"", "a.pdf", "application/pdf"⟩,
        ⟨Except.ok "", EvalOutcome.raw "", Except.ok "", false, "u", "x", "v", "w"⟩)]
      "jd" "rs" (by decide) (by decide) (by decide)]
    have hfil : ([((⟨"", "a.pdf", "application/pdf"⟩ : MFile),
        (⟨Except.ok "", EvalOutcome.raw "", Except.ok "", false, "u", "x", "v", "w"⟩
          : ItemEnv))].filter (fun fe => fe.1.mimetype = "application/pdf"))
        = [((⟨"", "a.pdf", "application/pdf"⟩ : MFile),
          (⟨Except.ok "", EvalOutcome.raw "", Except.ok "", false, "u", "x", "v", "w"⟩
            : ItemEnv))] := rfl
    rw [show (5 : Nat) = 4 + 1 from rfl, processInBatches_eq, hfil, specChunks_cons]
    simp only [List.take_succ_cons, List.take_nil, List.drop_succ_cons, List.drop_nil,
      specChunks_nil]
    decide
  · decide

/-- C3: code bug — the claim is false of the code: the `catch` block of
`parseWithGemini` (lines 512-543) reads `extractedEmail`, a `const`
declared inside the `try` block (line 334) and out of scope in the
`catch`, so whenever the external evaluator call throws — for every input
text, job-requirement string, recruiter-notes string and thrown error —
the adapter raises `ReferenceError: extractedEmail is not defined` to its
caller instead of returning a failure payload. -/
theorem c3_catch_block_reference_error (text jd rs msg u : String) :
    parseWithGemini true text jd rs (EvalOutcome.throwErr msg) u
      = Except.error (JsThrow.referenceError ("extractedEmail")) := rfl

/-- C4: corrected — the normalizer is not idempotent. Re-normalizing a
normalized record reproduces every field except `experience`, which is
reset to 0: `validateCandidate` reads the `experienceYears` key, but its
output carries the value under `experience`, so the second pass reads
`undefined`. The uuid-shaped hypotheses say the first pass's uuid draws
really came from `uuidv4()`. (Stated over the pre-existing proof of the
record equality; see also the counterexample, where an input with 5
experience years ends with experience 0 after re-normalization.) -/
theorem c4_not_idempotent (x : CandidateInput) (u1 u2 v1 v2 : String)
    (hu1 : uuidLike u1 = true) (hu2 : uuidLike u2 = true) :
    validateCandidate (recordToInput (validateCandidate x u1 u2)) v1 v2
      = { validateCandidate x u1 u2 with experience := JNum.rat 0 } :=
  c4_renormalize_resets_experience x u1 u2 v1 v2 hu1 hu2

/-- C4 witness: a concrete run of the re-normalization equality. -/
theorem c4_not_idempotent_witness :
    validateCandidate (recordToInput (validateCandidate
        { name := JSVal.str ("Ann"), experienceYears := JSVal.num (JNum.rat 3) }
        "ab-12" "cd-34")) "ef-56" "fa-78"
      = { validateCandidate
          { name := JSVal.str ("Ann"), experienceYears := JSVal.num (JNum.rat 3) }
          "ab-12" "cd-34" with experience := JNum.rat 0 } :=
  c4_not_idempotent { name := JSVal.str ("Ann"), experienceYears := JSVal.num (JNum.rat 3) }
    "ab-12" "cd-34" "ef-56" "fa-78" (by decide) (by decide)

/-- C4 counterexample: an input with 5 experience years normalizes to a
record with experience 5, but re-normalizing that record yields
experience 0 — `validateCandidate (validateCandidate x)` differs from
`validateCandidate x`. -/
theorem c4_counterexample :
    (validateCandidate { experienceYears := JSVal.num (JNum.rat 5) } "u" "v").experience
      = JNum.rat 5
    ∧ (validateCandidate (recordToInput (validateCandidate
          { experienceYears := JSVal.num (JNum.rat 5) } "u" "v")) "u" "v").experience
      = JNum.rat 0 :=
  ⟨by decide, by decide⟩

/-- C5: amended email normalization: the produced email always equals the
line-199 selection `vcEmail`, is a fixed point of lowercasing, and is
nonempty; a supplied value that passes validation is kept (trimmed and
lowercased); when validation fails and the name is unusable, the
fresh-token fallback `unknown_<uuid>@gmail.com` is produced and is
syntactically valid; when validation fails and the name is usable, the
fallback is the name with whitespace removed and lowercased plus
`@gmail.com` — that form is valid when the slug is nonempty and uses only
local-part characters, but NOT in general: the original claim fails
because a usable name such as `a@b` yields `a@b@gmail.com`, which fails
the validation regex (see the counterexample). -/
theorem c5_email_normalization (x : CandidateInput) (u1 u2 : String)
    (hu2 : uuidLike u2 = true) :
    ((validateCandidate x u1 u2).email = vcEmail x u2)
    ∧ jsLower ((validateCandidate x u1 u2).email) = (validateCandidate x u1 u2).email
    ∧ (validateCandidate x u1 u2).email ≠ ""
    ∧ (vcEmailInput x ≠ "" → emailValid (vcEmailInput x) = true →
        (validateCandidate x u1 u2).email = vcEmailInput x)
    ∧ (¬ (vcEmailInput x ≠ "" ∧ emailValid (vcEmailInput x) = true) →
        usableStr x.name = none →
        (validateCandidate x u1 u2).email = "unknown_" ++ u2 ++ "@gmail.com"
          ∧ emailValid ((validateCandidate x u1 u2).email) = true)
    ∧ (∀ t, ¬ (vcEmailInput x ≠ "" ∧ emailValid (vcEmailInput x) = true) →
        usableStr x.name = some t →
        (validateCandidate x u1 u2).email = jsLower (jsStripWs t) ++ "@gmail.com"
          ∧ ((jsLower (jsStripWs t)).data ≠ [] →
            (jsLower (jsStripWs t)).data.all isLocalChar = true →
            emailValid ((validateCandidate x u1 u2).email) = true)) := by
  have hemail : (validateCandidate x u1 u2).email = vcEmail x u2 := rfl
  refine ⟨rfl, ?_, ?_, ?_, ?_, ?_⟩
  · rw [hemail]
    exact vcEmail_lower_fix x u2 hu2
  · rw [hemail]
    exact vcEmail_ne_empty x u2
  · intro h1 h2
    rw [hemail]
    unfold vcEmail
    rw [if_pos ⟨h1, h2⟩]
  · intro hk hn
    have he : vcEmail x u2 = "unknown_" ++ u2 ++ "@gmail.com" := by
      unfold vcEmail vcFallbackEmail
      rw [if_neg hk, hn]
    rw [hemail, he]
    exact ⟨rfl, unknown_uuid_valid u2 hu2⟩
  · intro t hk hn
    have he : vcEmail x u2 = jsLower (jsStripWs t) ++ "@gmail.com" := by
      unfold vcEmail vcFallbackEmail
      rw [if_neg hk, hn]
    rw [hemail, he]
    exact ⟨rfl, fun hne hloc => emailValid_local_gmail _ hne hloc⟩

/-- C5 witness: a supplied address that passes validation is kept in its
trimmed, lowercased form, itself a lowercase fixed point. -/
theorem c5_email_normalization_witness :
    (validateCandidate { email := JSVal.str (" Bob@Example.com ") } "u" "ab-12").email
      = vcEmailInput { email := JSVal.str (" Bob@Example.com ") }
    ∧ jsLower ((validateCandidate { email := JSVal.str (" Bob@Example.com ") } "u" "ab-12").email)
      = (validateCandidate { email := JSVal.str (" Bob@Example.com ") } "u" "ab-12").email :=
  ⟨(c5_email_normalization { email := JSVal.str (" Bob@Example.com ") } "u" "ab-12"
      (by decide)).2.2.2.1 (by decide) (by decide),
   (c5_email_normalization { email := JSVal.str (" Bob@Example.com ") } "u" "ab-12"
      (by decide)).2.1⟩

/-- C5 counterexample: with an invalid supplied email and the usable name
`a@b`, the name-slug fallback builds `a@b@gmail.com`, which fails the
validation regex (its domain segment contains a second `@`), so the
record's email is not a syntactically valid address. -/
theorem c5_counterexample :
    (validateCandidate { name := JSVal.str ("a@b"), email := JSVal.str ("bad") } "u" "v").email
      = "a@b@gmail.com"
    ∧ emailValid ((validateCandidate { name := JSVal.str ("a@b"), email := JSVal.str ("bad") }
        "u" "v").email) = false :=
  ⟨by decide, by decide⟩

/-- C6: confirmed against the selector modelled from spec §4.1 (the server
variant implementing the "enhanced" cloud fallback is not part of `src/`):
a primary success fully determines the outcome (threshold-checked,
independent of the enhanced flag and of the fallback backend); a primary
failure with the flag off propagates immediately regardless of the
fallback; with the flag on, a double failure yields the combined error
referencing both causes, and a fallback success is threshold-checked like
a primary one. -/
theorem c6_extraction_strategy :
    (∀ (enhanced : Bool) (t : String) (fb : Except String String),
      extractWithStrategy enhanced (Except.ok t) fb
        = if (jsTrim t).data.length < 50 then Except.error ExtractionError.insufficientContent
          else Except.ok t)
    ∧ (∀ (e1 : String) (fb : Except String String),
      extractWithStrategy false (Except.error e1) fb
        = Except.error (ExtractionError.backend e1))
    ∧ (∀ (e1 e2 : String),
      extractWithStrategy true (Except.error e1) (Except.error e2)
        = Except.error (ExtractionError.combined e1 e2))
    ∧ (∀ (e1 t : String),
      extractWithStrategy true (Except.error e1) (Except.ok t)
        = if (jsTrim t).data.length < 50 then Except.error ExtractionError.insufficientContent
          else Except.ok t) := by
  refine ⟨fun enhanced t fb => ?_, fun e1 fb => rfl, fun e1 e2 => rfl, fun e1 t => rfl⟩
  cases enhanced <;> rfl

/-- C7: the candidates list of every run result is sorted by descending
score (under the comparator relation `sortLe`, every record precedes only
records it may precede), and on every list of records with finite scores —
which all pipeline records have — the embedded sort is a permutation,
produces a `sortLe`-sorted list, and is stable: the records holding any
fixed score keep their original relative order. -/
theorem c7_sorted_descending_stable :
    (∀ (cfg : Config) (items : List (MFile × ItemEnv)) (jd rs : String),
      ((processResumeFiles cfg items jd rs).candidates).Pairwise
        (fun a b => sortLe a b = true))
    ∧ (∀ (l : List CandidateRecord), (∀ r ∈ l, recRat r) →
      (jsSortCandidates l).Perm l
      ∧ (jsSortCandidates l).Pairwise (fun a b => sortLe a b = true)
      ∧ ∀ s, (jsSortCandidates l).filter (fun r => decide (r.score = s))
          = l.filter (fun r => decide (r.score = s))) :=
  ⟨run_candidates_pairwise, fun l hl => ⟨jsSortCandidates_perm l,
    jsSortCandidates_pairwise l hl, fun s => jsSortCandidates_filter s l hl⟩⟩

/-- C7 witness: sorting two concrete records (scores 50 and 90) is a
permutation, sorted descending, and stable on the score-50 records. -/
theorem c7_sorted_descending_stable_witness :
    (jsSortCandidates [c7recA, c7recB]).Perm [c7recA, c7recB]
    ∧ (jsSortCandidates [c7recA, c7recB]).Pairwise (fun a b => sortLe a b = true)
    ∧ (jsSortCandidates [c7recA, c7recB]).filter (fun r => decide (r.score = JNum.rat 50))
        = [c7recA, c7recB].filter (fun r => decide (r.score = JNum.rat 50)) := by
  have hl : ∀ r ∈ [c7recA, c7recB], recRat r := by
    intro r hr
    rcases List.mem_cons.mp hr with rfl | hr2
    · exact ⟨50, rfl⟩
    · rcases List.mem_cons.mp hr2 with rfl | h3
      · exact ⟨90, rfl⟩
      · simp at h3
  exact ⟨(c7_sorted_descending_stable.2 [c7recA, c7recB] hl).1,
    (c7_sorted_descending_stable.2 [c7recA, c7recB] hl).2.1,
    (c7_sorted_descending_stable.2 [c7recA, c7recB] hl).2.2 (JNum.rat 50)⟩

/-- C8: `processInBatches` partitions the items into consecutive batches
of size 5 (last possibly smaller), concatenates the per-batch results in
input order, and performs one cooldown wait between consecutive batches
and none after the last (wait count = batch count − 1); twelve items make
batches of sizes 5, 5, 2 with exactly two waits. -/
theorem c8_batching :
    (∀ (β : Type) (f : List (MFile × ItemEnv) → List β) (items : List (MFile × ItemEnv)),
      processInBatches 5 f items
        = (((specChunks 5 items).map f).flatten, (specChunks 5 items).length - 1))
    ∧ (specChunks 5 ([0, 1, 2, 3, 4, 5, 6, 7, 8, 9, 10, 11] : List Nat)).map List.length
        = [5, 5, 2]
    ∧ (specChunks 5 ([0, 1, 2, 3, 4, 5, 6, 7, 8, 9, 10, 11] : List Nat)).flatten
        = [0, 1, 2, 3, 4, 5, 6, 7, 8, 9, 10, 11]
    ∧ (processInBatches 5 (fun b => b) ([0, 1, 2, 3, 4, 5, 6, 7, 8, 9, 10, 11] : List Nat)).2
        = 2 := by
  have h5 : (5 : Nat) = 4 + 1 := rfl
  have hc : specChunks (4 + 1) ([0, 1, 2, 3, 4, 5, 6, 7, 8, 9, 10, 11] : List Nat)
      = [[0, 1, 2, 3, 4], [5, 6, 7, 8, 9], [10, 11]] := by
    rw [specChunks_cons]
    simp only [List.take_succ_cons, List.take_nil, List.take_zero, List.drop_succ_cons,
      List.drop_nil, List.drop_zero]
    rw [specChunks_cons]
    simp only [List.take_succ_cons, List.take_nil, List.take_zero, List.drop_succ_cons,
      List.drop_nil, List.drop_zero]
    rw [specChunks_cons]
    simp only [List.take_succ_cons, List.take_nil, List.take_zero, List.drop_succ_cons,
      List.drop_nil, List.drop_zero, specChunks_nil]
  refine ⟨?_, ?_, ?_, ?_⟩
  · intro β f items
    rw [h5, processInBatches_eq]
  · rw [h5, hc]
    decide
  · rw [h5, hc]
    decide
  · rw [h5, processInBatches_eq, hc]
    decide

/-- C9: when the per-item pipeline reaches a successfully evaluated record
whose name is not an evaluator-failure label and the storage upload fails,
the record is not discarded: it is still pushed onto the batch results and
handed to the persistence collaborator, with `resumeUrl` set to the
`Upload Failed` sentinel and a note describing the upload failure appended
to its `parsedText` summary. -/
theorem c9_upload_failure_keeps_record (k : Bool) (jd rs text m : String) (file : MFile)
    (env : ItemEnv) (payload : CandidateInput)
    (hp : file.path ≠ "") (ho : file.originalname ≠ "")
    (hext : env.extractR = Except.ok text)
    (hlen : ¬ (jsTrim text).data.length < 50)
    (hpg : parseWithGemini k text jd rs env.evalR env.aux = Except.ok payload)
    (hname : (evaluatedCand payload env).name ∉ geminiErrorNames)
    (hup : env.uploadR = Except.error m) :
    processOneFile k jd rs file env
      = ⟨some { evaluatedCand payload env with
            resumeUrl := JSVal.str ("Upload Failed"),
            parsedText := (evaluatedCand payload env).parsedText
              ++ uploadFailNote file.originalname m },
          jsSave env { evaluatedCand payload env with
            resumeUrl := JSVal.str ("Upload Failed"),
            parsedText := (evaluatedCand payload env).parsedText
              ++ uploadFailNote file.originalname m }⟩ := by
  unfold processOneFile
  rw [if_neg (by rintro (h | h); exacts [hp h, ho h])]
  simp only [hext]
  rw [if_neg hlen]
  simp only [hpg]
  show processUploadStage env file (evaluatedCand payload env) = _
  unfold processUploadStage
  rw [if_neg hname]
  simp only [hup]
  rfl

/-- C9 witness: a concrete item whose evaluation succeeds (name `Bob`,
score 90) and whose upload fails with `disk full` still yields its pushed
and persisted record, with the sentinel URL and the appended note. -/
theorem c9_upload_failure_keeps_record_witness :
    processOneFile true "jd" "rs" c9file c9env
      = ⟨some { evaluatedCand c9payload c9env with
            resumeUrl := JSVal.str ("Upload Failed"),
            parsedText := (evaluatedCand c9payload c9env).parsedText
              ++ uploadFailNote c9file.originalname ("disk full") },
          jsSave c9env { evaluatedCand c9payload c9env with
            resumeUrl := JSVal.str ("Upload Failed"),
            parsedText := (evaluatedCand c9payload c9env).parsedText
              ++ uploadFailNote c9file.originalname ("disk full") }⟩ :=
  c9_upload_failure_keeps_record true "jd" "rs" c9text ("disk full") c9file c9env c9payload
    (by decide) (by decide) rfl (by decide) rfl (by decide) rfl

/-- C10: implicit dispatch on the name label: whenever the normalized
record's name is one of the six fatal evaluator labels — however it got
there, including an evaluator genuinely reporting that string as the
candidate's name — the upload stage is skipped (the result does not
consult the upload outcome at all) and the pushed, persisted record keeps
the `N/A` resume URL. -/
theorem c10_gemini_error_label_skips_upload (k : Bool) (jd rs text : String) (file : MFile)
    (env : ItemEnv) (payload : CandidateInput)
    (hp : file.path ≠ "") (ho : file.originalname ≠ "")
    (hext : env.extractR = Except.ok text)
    (hlen : ¬ (jsTrim text).data.length < 50)
    (hpg : parseWithGemini k text jd rs env.evalR env.aux = Except.ok payload)
    (hname : (evaluatedCand payload env).name ∈ geminiErrorNames) :
    processOneFile k jd rs file env
      = ⟨some (evaluatedCand payload env), jsSave env (evaluatedCand payload env)⟩
    ∧ (evaluatedCand payload env).resumeUrl = JSVal.str ("N/A") := by
  constructor
  · unfold processOneFile
    rw [if_neg (by rintro (h | h); exacts [hp h, ho h])]
    simp only [hext]
    rw [if_neg hlen]
    simp only [hpg]
    show processUploadStage env file (evaluatedCand payload env) = _
    unfold processUploadStage
    rw [if_pos hname]
    rfl
  · show jsOr (JSVal.str ("N/A")) (JSVal.str ("N/A")) = JSVal.str ("N/A")
    rfl

/-- C10 witness: the evaluator genuinely reports the name
`Content Blocked`; the item's upload outcome (here a would-succeed upload)
is never consulted and the record keeps resumeUrl `N/A`. -/
theorem c10_gemini_error_label_skips_upload_witness :
    (processOneFile true "jd" "rs" c10file c10env
      = ⟨some (evaluatedCand c10payload c10env), jsSave c10env (evaluatedCand c10payload c10env)⟩)
    ∧ (evaluatedCand c10payload c10env).resumeUrl = JSVal.str ("N/A") :=
  c10_gemini_error_label_skips_upload true "jd" "rs" c10text c10file c10env c10payload
    (by decide) (by decide) rfl (by decide) rfl (by decide)
